import Mathlib

/-!
Verification of the PSn00bSDK dynamic linker (src/libpsn00b/psxetc/dl.c)
against its natural-language specification.

The C code is shallowly embedded: byte strings become `List Nat` (one
element per byte, `0` is the C NUL terminator), 32-bit machine integers
become `Nat` with explicit `% U32` where overflow can matter, the
process-wide symbol map becomes an explicit value threaded through the
functions, and every loop becomes structural recursion on an explicit
fuel argument chosen large enough for the loop's actual bound (so the
definitions evaluate by kernel reduction).

Modelling conventions, stated once here:
* `malloc` is modelled as always succeeding (the allocation-failure error
  paths `ERR_MAP_MALLOC` / `ERR_DLL_MALLOC` are not exercised by the
  claims under study).
* a C read of memory outside the objects the linker allocated is
  undefined behaviour; where a claim depends on such a read the model
  returns a distinguished outcome (`LookupOutcome.oobRead`,
  `InitRes.ub`) instead of inventing a value.
* characters are modelled by their non-negative byte values; the source
  converts `char` to `uint32_t` whose result for bytes below 0x80 (all
  inputs of interest are ASCII) does not depend on the target's char
  signedness.
-/

/-- Modulus of 32-bit unsigned arithmetic. -/
def U32 : Nat := 4294967296

/-- Modulus of 64-bit unsigned arithmetic (the parser reads addresses with
a 64-bit conversion and truncates). -/
def U64 : Nat := 18446744073709551616

/-- Empty-slot sentinel used by the map's hash table, 0xffffffff in dl.c. -/
def SENT : Nat := 4294967295

/-- C isspace over the byte values the "C" locale accepts: space, tab,
newline, vertical tab, form feed, carriage return. -/
def isSpace (c : Nat) : Bool :=
  c = 32 || c = 9 || c = 10 || c = 11 || c = 12 || c = 13

/-- C toupper in the "C" locale, as applied to the type letter in
DL_ParseSymbolMap. -/
def toUpperByte (c : Nat) : Nat :=
  if 97 ≤ c ∧ c ≤ 122 then c - 32 else c

/-- Hexadecimal digit test for the scanf %x conversions. -/
def isHexDigit (c : Nat) : Bool :=
  (48 ≤ c && c ≤ 57) || (97 ≤ c && c ≤ 102) || (65 ≤ c && c ≤ 70)

/-- Value of a hexadecimal digit byte. -/
def hexVal (c : Nat) : Nat :=
  if 48 ≤ c ∧ c ≤ 57 then c - 48
  else if 97 ≤ c ∧ c ≤ 102 then c - 87
  else if 65 ≤ c ∧ c ≤ 70 then c - 55
  else 0

/-- Bytes of a C string up to (excluding) the NUL terminator: the part of
the buffer any C string function actually reads. -/
def cstr (s : List Nat) : List Nat :=
  s.takeWhile (fun c => c ≠ 0)

/-- One step of the hash loop body in _elf_hash (dl.c lines 147-156):
shift in the byte, fold the top nibble back in, clear the top nibble.
All operations are on uint32_t, hence the explicit % U32. -/
def elfHashStep (v c : Nat) : Nat :=
  let v1 := (v * 16 + c) % U32
  let nibble := v1 &&& 0xf0000000
  let v2 := if nibble ≠ 0 then v1 ^^^ (nibble >>> 24) else v1
  v2 &&& (0xffffffff ^^^ nibble)

/-- Accumulator loop of _elf_hash: the C while loop runs until the NUL
terminator. -/
def elfHashAux (v : Nat) : List Nat → Nat
  | [] => v
  | c :: rest => if c = 0 then v else elfHashAux (elfHashStep v c) rest

/-- The hash function _elf_hash of dl.c (lines 144-159), used both by the
symbol-map parser and by every lookup. -/
def elfHash (s : List Nat) : Nat :=
  elfHashAux 0 s

/-- Modelled from the spec, section 4.1: the PJW hash pseudocode, written
as a fold over the bytes of the NUL-terminated string. Only used to be
compared against elfHash, the function the code implements. -/
def pjwHashSpec (s : List Nat) : Nat :=
  (cstr s).foldl
    (fun h b =>
      let h1 := (h * 16 + b) % U32
      let nibble := h1 &&& 0xf0000000
      let h2 := if nibble ≠ 0 then h1 ^^^ (nibble >>> 24) else h1
      h2 &&& (0xffffffff ^^^ nibble))
    0

/-! ## Model of sscanf(ptr, "%63s %1s %Lx %x", ...)

The parser reads each line with this format string (dl.c lines 240-247).
Each conversion first skips whitespace; %63s and %1s then read at most 63
resp. 1 non-whitespace bytes; %Lx and %x read an optionally signed, hex
number with optional 0x prefix. The input list is assumed already cut at
the NUL terminator (see cstr). -/

/-- One %Ns conversion: skip whitespace, take at most w non-space bytes.
Returns the token and the unconsumed rest. -/
def readToken (w : Nat) (s : List Nat) : List Nat × List Nat :=
  let s1 := s.dropWhile isSpace
  let t := (s1.takeWhile (fun c => !isSpace c)).take w
  (t, s1.drop t.length)

/-- Digit-consuming loop of a %x conversion. -/
def scanHexDigits : List Nat → Nat → Nat × List Nat
  | [], v => (v, [])
  | c :: r, v =>
    if isHexDigit c then scanHexDigits r (v * 16 + hexVal c) else (v, c :: r)

/-- One %Lx conversion: skip whitespace, optional sign, optional 0x/0X
prefix (only when a hex digit follows, as strtoul consumes), then at least
one hex digit; the value is reduced mod 2^64 as the uint64_t target
does. Returns none on a matching failure. -/
def scanHex (s : List Nat) : Option (Nat × List Nat) :=
  let s1 := s.dropWhile isSpace
  let p : Bool × List Nat :=
    match s1 with
    | 45 :: r => (true, r)
    | 43 :: r => (false, r)
    | _ => (false, s1)
  let s3 : List Nat :=
    match p.2 with
    | 48 :: 120 :: r => if isHexDigit (r.headD 0) then r else p.2
    | 48 :: 88 :: r => if isHexDigit (r.headD 0) then r else p.2
    | other => other
  match s3 with
  | [] => none
  | c :: _ =>
    if isHexDigit c then
      let d := scanHexDigits s3 0
      some ((if p.1 then (U64 - d.1 % U64) % U64 else d.1 % U64), d.2)
    else none

/-- Result of the sscanf call on one line: how many conversions were
assigned, the name token, the first byte of the type token, and the
64-bit address. Fields not assigned keep 0 (the C locals are read only
when parsed says they were assigned). -/
structure ScanResult where
  parsed : Nat
  name : List Nat
  type0 : Nat
  addr : Nat
  deriving DecidableEq, Repr

/-- Model of the whole sscanf(&ptr[pos], "%63s %1s %Lx %x", ...) call. -/
def scanLine (s : List Nat) : ScanResult :=
  let n := readToken 63 s
  if n.1 = [] then ⟨0, [], 0, 0⟩
  else
    let t := readToken 1 n.2
    if t.1 = [] then ⟨1, n.1, 0, 0⟩
    else
      match scanHex t.2 with
      | none => ⟨2, n.1, t.1.headD 0, 0⟩
      | some a =>
        match scanHex a.2 with
        | none => ⟨3, n.1, t.1.headD 0, a.1⟩
        | some _ => ⟨4, n.1, t.1.headD 0, a.1⟩

/-- Validity test applied by DL_ParseSymbolMap (lines 249-264): at least
three conversions, non-null truncated address, type letter (upper-cased)
one of T, R, D, B. -/
def lineValid (sc : ScanResult) : Bool :=
  3 ≤ sc.parsed && sc.addr % U32 ≠ 0 &&
    (toUpperByte sc.type0 = 84 || toUpperByte sc.type0 = 82 ||
     toUpperByte sc.type0 = 68 || toUpperByte sc.type0 = 66)

/-! ## Symbol map tables -/

/-- MapEntry of dl.c: the stored hash and the symbol's address (a 32-bit
pointer, kept as a Nat). -/
structure MapEntry where
  hash : Nat
  ptr : Nat
  deriving DecidableEq, Repr

/-- The global map structures: _map_hash_table laid out exactly as in the
code (slot 0 = nbucket, slot 1 = nchain, then nbucket bucket heads, then
chain links) and _map_entry_table as the list of entries written so far
(the C table is preallocated with `entries` slots; only the first `index`
are ever written, and the model keeps exactly those). -/
structure MapTable where
  ht : List Nat
  entries : List MapEntry
  deriving DecidableEq, Repr

/-- Error codes of dl.c (the ErrorCode enum), minus ERR_NONE which the
model renders as an absent error. -/
inductive ErrCode where
  | file | fileMalloc | fileRead | noMap | mapMalloc | noSymbols
  | dllNull | dllMalloc | dllFormat | noFileApi | mapSymbol | dllSymbol
  deriving DecidableEq, Repr

/-- Newline count over the buffer, the first scan of DL_ParseSymbolMap
(lines 208-212); it is used as bucket count, chain capacity and return
value. -/
def countNewlines (buf : List Nat) : Nat :=
  buf.count 10

/-- Inner skip loop of the parser (lines 290-291): advance pos while in
range and not at a newline. Fuel-driven; called with fuel = buf.length
which bounds the number of increments. -/
def skipLineAux (buf : List Nat) : Nat → Nat → Nat
  | 0, pos => pos
  | f + 1, pos =>
    if pos < buf.length ∧ buf.getD pos 0 ≠ 10 then skipLineAux buf f (pos + 1)
    else pos

/-- Position of the newline ending the line starting at pos (or the end of
the buffer). -/
def skipLine (buf : List Nat) (pos : Nat) : Nat :=
  skipLineAux buf buf.length pos

/-- Chain-append walk of the parser (lines 279-283): starting from the
slot for the entry's bucket, follow chain links until a slot holding the
sentinel is found; returns that slot's index into the hash-table list.
The fuel bounds the chain length (under the table invariant the chain is
strictly increasing, so ht.length always suffices). -/
def chainFind (ht : List Nat) (nbucket : Nat) : Nat → Nat → Nat
  | _, 0 => 0
  | slot, f + 1 =>
    let v := ht.getD slot 0
    if v = SENT then slot else chainFind ht nbucket (2 + nbucket + v) f

/-- Insertion of one valid symbol (lines 273-284): write the entry at the
next free index, then write that index into the first sentinel slot of
its bucket's chain. -/
def insertEntry (nbucket : Nat) (t : MapTable) (h a : Nat) : MapTable :=
  let idx := t.entries.length
  let slot := chainFind t.ht nbucket (2 + h % nbucket) t.ht.length
  { ht := t.ht.set slot idx, entries := t.entries ++ [⟨h, a⟩] }

/-- Line loop of DL_ParseSymbolMap (lines 232-292): at each position,
run sscanf on the NUL-cut suffix, insert the entry when the line is
valid, then skip to just past the newline. Fuel-driven: pos strictly
increases each round, so buf.length + 1 rounds suffice. -/
def parseStep (buf : List Nat) (nbucket : Nat) : Nat → Nat → MapTable → MapTable
  | 0, _, t => t
  | f + 1, pos, t =>
    if pos < buf.length ∧ buf.getD pos 0 ≠ 0 then
      let sc := scanLine (cstr (buf.drop pos))
      let t1 := if lineValid sc then insertEntry nbucket t (elfHash sc.name) (sc.addr % U32) else t
      parseStep buf nbucket f (skipLine buf pos + 1) t1
    else t

/-- Outcome of DL_ParseSymbolMap: the returned int32, the map structures
the call left behind (the C code assigns _map_hash_table and
_map_entry_table before any of the modelled failure paths, so the model
always carries a table; mapSet reflects that the global pointer is
non-null), and the error code it set, if any. -/
structure ParseOut where
  ret : Int
  mapSet : Option MapTable
  err : Option ErrCode
  deriving DecidableEq, Repr

/-- Freshly allocated map of DL_ParseSymbolMap before the line loop
(lines 221-229): header [nbucket, nchain] then every slot set to the
sentinel, no entry written yet. -/
def table0 (nbucket entries : Nat) : MapTable :=
  { ht := [nbucket, entries] ++ List.replicate (nbucket + entries) SENT
    entries := [] }

/-- The structures DL_ParseSymbolMap leaves in _map_hash_table and
_map_entry_table: run the line loop over the fresh table, with
nbucket = nchain = newline count. -/
def parseTable (buf : List Nat) : MapTable :=
  parseStep buf (countNewlines buf) (buf.length + 1) 0
    (table0 (countNewlines buf) (countNewlines buf))

/-- DL_ParseSymbolMap (dl.c lines 202-299), with malloc modelled as
succeeding. The previously loaded map is released first
(DL_UnloadSymbolMap); the model is stateless, so that shows up only as
the fresh table being built from scratch. The tables are assigned before
the final `!entries` test, so mapSet is non-null on every modelled path;
note the code returns and tests `entries`, the newline count, not the
number of entries written. -/
def parseMap (buf : List Nat) : ParseOut :=
  if countNewlines buf = 0 then
    { ret := -1, mapSet := some (parseTable buf), err := some .noSymbols }
  else
    { ret := (countNewlines buf : Int), mapSet := some (parseTable buf), err := none }

/-- Valid (name, truncated address) pairs of the map text, line by line,
mirroring parseStep's recursion exactly; entry i of the built table is
entry i of this list with its name hashed. -/
def validEntriesAux (buf : List Nat) : Nat → Nat → List (List Nat × Nat)
  | 0, _ => []
  | f + 1, pos =>
    if pos < buf.length ∧ buf.getD pos 0 ≠ 0 then
      let sc := scanLine (cstr (buf.drop pos))
      let rest := validEntriesAux buf f (skipLine buf pos + 1)
      if lineValid sc then (sc.name, sc.addr % U32) :: rest else rest
    else []

/-- The valid symbol lines of a buffer, in order. -/
def validEntries (buf : List Nat) : List (List Nat × Nat) :=
  validEntriesAux buf (buf.length + 1) 0

/-- Outcome of DL_GetSymbolByName. found/notFound mirror the return of
the address resp. the ERR_MAP_SYMBOL null return; noMap is the
ERR_NO_MAP null return; oobRead i records that the loop body read
_map_entry_table[i] outside the entries ever written (undefined
behaviour in the C); fuelOut cannot occur on tables the parser builds. -/
inductive LookupOutcome where
  | found (a : Nat)
  | notFound
  | noMap
  | oobRead (i : Nat)
  | fuelOut
  deriving DecidableEq, Repr

/-- Chain walk of DL_GetSymbolByName (lines 337-346). Faithful to the C
loop: the continuation test is only `i != 0` (the sentinel 0xffffffff is
NOT tested), then the body reads _map_entry_table[i], compares hashes,
and follows the chain link. -/
def lookupWalk (ht : List Nat) (entries : List MapEntry) (nbucket h : Nat) :
    Nat → Nat → LookupOutcome
  | _, 0 => .fuelOut
  | i, f + 1 =>
    if i = 0 then .notFound
    else if hlt : i < entries.length then
      let e := entries.get ⟨i, hlt⟩
      if h = e.hash then .found e.ptr
      else lookupWalk ht entries nbucket h (ht.getD (2 + nbucket + i) 0) f
    else .oobRead i

/-- DL_GetSymbolByName (dl.c lines 326-349) against a loaded map (none
models a null _map_hash_table). -/
def getSymbol (m : Option MapTable) (name : List Nat) : LookupOutcome :=
  match m with
  | none => .noMap
  | some t =>
    let nbucket := t.ht.getD 0 0
    let h := elfHash name
    lookupWalk t.ht t.entries nbucket h (t.ht.getD (2 + h % nbucket) 0)
      (t.ht.length + 1)

/-! ## Module loader (dlinit / dlopen / dlclose)

The module image is modelled structurally: the .dynamic section as its
(tag, value) pairs, and the sections the dynamic entries point into
(GOT, symbol table, string table, hash table) as the lists found at the
declared offsets. Pointer arithmetic into the flat buffer is thereby
abstracted away; the code has no bounds checks (spec section 9), and the
model assumes the declared sections are the ones handed in. -/

/-- ELF dynamic tags used by dlinit, with their values from elf.h. -/
def DT_PLTGOT : Nat := 3
/-- Tag of the .hash section offset. -/
def DT_HASH : Nat := 4
/-- Tag of the .dynstr section offset. -/
def DT_STRTAB : Nat := 5
/-- Tag of the .dynsym section offset. -/
def DT_SYMTAB : Nat := 6
/-- Tag of the symbol-entry size. -/
def DT_SYMENT : Nat := 11
/-- MIPS ABI version tag. -/
def DT_MIPS_RLD_VERSION : Nat := 0x70000001
/-- MIPS flags tag. -/
def DT_MIPS_FLAGS : Nat := 0x70000005
/-- MIPS assumed base address tag. -/
def DT_MIPS_BASE_ADDRESS : Nat := 0x70000006
/-- Count of local GOT entries. -/
def DT_MIPS_LOCAL_GOTNO : Nat := 0x7000000a
/-- Count of symbol table entries. -/
def DT_MIPS_SYMTABNO : Nat := 0x70000011
/-- Index of the first symbol with a GOT entry. -/
def DT_MIPS_GOTSYM : Nat := 0x70000013
/-- Quickstart bit of DT_MIPS_FLAGS (rejected by dlinit). -/
def RHF_QUICKSTART : Nat := 1
/-- Symbol type STT_OBJECT. -/
def STT_OBJECT : Nat := 1
/-- Symbol type STT_FUNC. -/
def STT_FUNC : Nat := 2

/-- Elf32_Sym record (16 bytes in the file; the layout check SYMENT = 16
is on the dynamic walk). -/
structure ElfSym where
  st_name : Nat
  st_value : Nat
  st_size : Nat
  st_info : Nat
  st_shndx : Nat
  deriving DecidableEq, Repr

/-- ELF32_ST_TYPE of st_info: the low nibble. -/
def symType (info : Nat) : Nat := info &&& 0xf

/-- A module image: the .dynamic pairs and the contents of the sections
they declare. -/
structure Image where
  dyn : List (Nat × Nat)
  got : List Nat
  symtab : List ElfSym
  strtab : List Nat
  hash : List Nat
  deriving DecidableEq, Repr

/-- State accumulated by the .dynamic walk of dlinit (lines 373-492).
local_got_len and first_got_sym are initialised to 0 by the code; the
DLL's symbol_count field is NOT initialised before the walk, so its
initial value is the malloc garbage, threaded in as `junk`. The four
section offsets are recorded when seen (also uninitialised before). -/
structure DynInfo where
  localGot : Nat
  firstGotSym : Nat
  symbolCount : Nat
  gotOff : Option Nat
  hashOff : Option Nat
  strtabOff : Option Nat
  symtabOff : Option Nat
  deriving DecidableEq, Repr

/-- Initial dynamic-walk state; junk is the uninitialised symbol_count. -/
def dynInfo0 (junk : Nat) : DynInfo :=
  { localGot := 0, firstGotSym := 0, symbolCount := junk
    gotOff := none, hashOff := none, strtabOff := none, symtabOff := none }

/-- The .dynamic walk (dlinit lines 376-492): iterate pairs until a zero
tag (the end of the model list also terminates, standing for the
terminator), update the info per recognised tag, fail with
ERR_DLL_FORMAT on the checks the code makes. Values are 32-bit fields,
hence % U32 on the numeric stores. -/
def dynWalkAux (info : DynInfo) : List (Nat × Nat) → Except ErrCode DynInfo
  | [] => .ok info
  | (tag, v) :: rest =>
    if tag = 0 then .ok info
    else if tag = DT_PLTGOT then dynWalkAux { info with gotOff := some (v % U32) } rest
    else if tag = DT_HASH then dynWalkAux { info with hashOff := some (v % U32) } rest
    else if tag = DT_STRTAB then dynWalkAux { info with strtabOff := some (v % U32) } rest
    else if tag = DT_SYMTAB then dynWalkAux { info with symtabOff := some (v % U32) } rest
    else if tag = DT_SYMENT then
      if v % U32 ≠ 16 then .error .dllFormat else dynWalkAux info rest
    else if tag = DT_MIPS_RLD_VERSION then
      if v % U32 ≠ 1 then .error .dllFormat else dynWalkAux info rest
    else if tag = DT_MIPS_FLAGS then
      if v % U32 &&& RHF_QUICKSTART ≠ 0 then .error .dllFormat else dynWalkAux info rest
    else if tag = DT_MIPS_LOCAL_GOTNO then dynWalkAux { info with localGot := v % U32 } rest
    else if tag = DT_MIPS_BASE_ADDRESS then
      if v % U32 ≠ 0 then .error .dllFormat else dynWalkAux info rest
    else if tag = DT_MIPS_SYMTABNO then dynWalkAux { info with symbolCount := v % U32 } rest
    else if tag = DT_MIPS_GOTSYM then dynWalkAux { info with firstGotSym := v % U32 } rest
    else dynWalkAux info rest

/-- GOT length computation of dlinit line 501, in uint32 arithmetic:
local_got_len + (symbol_count - first_got_sym) - 2. -/
def gotLengthOf (info : DynInfo) : Nat :=
  (info.localGot + (info.symbolCount + U32 - info.firstGotSym % U32) % U32 + (U32 - 2)) % U32

/-- GOT relocation loop (dlinit lines 517-518): got[2+i] += base for
i below n, in uint32 arithmetic. -/
def relocGotAux (base : Nat) (got : List Nat) : Nat → List Nat
  | 0 => got
  | i + 1 =>
    let g := relocGotAux base got i
    g.set (2 + i) ((g.getD (2 + i) 0 + base) % U32)

/-- Scan of the GOT for a slot matching a relocated symbol value (dlinit
lines 544-546): first j in [ofs, ofs + fuel) with got[2+j] = target,
where the caller passes fuel = got_length - ofs. -/
def findGotSlotAux (got : List Nat) (target : Nat) : Nat → Nat → Option Nat
  | _, 0 => none
  | ofs, f + 1 =>
    if got.getD (2 + ofs) 0 = target then some ofs
    else findGotSlotAux got target (ofs + 1) f

/-- Bytes of the NUL-terminated name at offset off of the string table
(&dll->strtab[sym->st_name]). -/
def readCStr (strtab : List Nat) (off : Nat) : List Nat :=
  cstr (strtab.drop off)

/-- Outcome of the symbol fixup / eager-resolution loop of dlinit (lines
522-567). ubNullCallback records the call through the null
_dl_resolve_callback function pointer the code makes when RTLD_NOW
resolution runs with no callback installed (undefined behaviour). -/
inductive SymLoopRes where
  | ok (symtab : List ElfSym) (got : List Nat)
  | errMapSymbol
  | ubNullCallback
  deriving DecidableEq, Repr

/-- Resolve mode (dlfcn.h RTLD_LAZY / RTLD_NOW). -/
inductive DLMode where
  | lazy
  | now
  deriving DecidableEq, Repr

/-- The symbol fixup loop of dlinit: for each symbol index (n counts the
remaining iterations, i the current index), skip null st_value, add the
base, and in Now mode scan the GOT from the monotone cursor for a slot
holding the relocated value; when the matching symbol is undefined and
of type OBJECT or FUNC, call the resolve callback (the code does NOT
fall back to DL_GetSymbolByName here, and does not test the pointer for
null) and fail with ERR_MAP_SYMBOL when it returns null. Out-of-range
symbol reads (symbol_count beyond the table handed in) yield a zeroed
record, which the st_value test skips. -/
def symLoopAux (cb : Option (List Nat → Nat)) (strtab : List Nat) (mode : DLMode)
    (base gotLength : Nat) : Nat → Nat → List ElfSym → List Nat → Nat → SymLoopRes
  | 0, _, syms, got, _ => .ok syms got
  | n + 1, i, syms, got, ofs =>
    let sym := syms.getD i ⟨0, 0, 0, 0, 0⟩
    if sym.st_value = 0 then symLoopAux cb strtab mode base gotLength n (i + 1) syms got ofs
    else
      let v := (sym.st_value + base) % U32
      let syms1 := syms.set i { sym with st_value := v }
      if mode ≠ .now then symLoopAux cb strtab mode base gotLength n (i + 1) syms1 got ofs
      else
        match findGotSlotAux got v ofs (gotLength - ofs) with
        | none => symLoopAux cb strtab mode base gotLength n (i + 1) syms1 got ofs
        | some j =>
          if sym.st_shndx = 0 ∧ (symType sym.st_info = STT_OBJECT ∨ symType sym.st_info = STT_FUNC) then
            match cb with
            | none => .ubNullCallback
            | some f =>
              let a := f (readCStr strtab sym.st_name) % U32
              let got1 := got.set (2 + j) a
              if a = 0 then .errMapSymbol
              else symLoopAux cb strtab mode base gotLength n (i + 1) syms1 got1 j
          else symLoopAux cb strtab mode base gotLength n (i + 1) syms1 got j

/-- The DLL handle after a successful dlinit (struct DLL): base pointer,
buffer ownership marker (malloc_ptr, null out of dlinit and set by
dlopen), size, the mutated GOT and symbol table, and the section data. -/
structure DLLS where
  base : Nat
  mallocPtr : Option Nat
  size : Nat
  got : List Nat
  gotLength : Nat
  symtab : List ElfSym
  symbolCount : Nat
  strtab : List Nat
  hash : List Nat
  deriving DecidableEq, Repr

/-- Result of dlinit: a handle, an error return (null plus _error_code),
or undefined behaviour reached (the null-callback call). -/
inductive InitRes where
  | ok (dll : DLLS)
  | err (e : ErrCode)
  | ub
  deriving DecidableEq, Repr

/-- dlinit (dl.c lines 357-586). Parameters beyond the C signature stand
for the environment: trampoline is the address of _dl_resolve_wrapper,
handleAddr the address malloc gave the DLL struct, junk the
uninitialised symbol_count field, cb the current _dl_resolve_callback.
Steps 7 (cache flush, no linker-visible effect) and 8 (constructor
invocation, which only calls module code; its call order is modelled by
ctorCalls below) leave the handle as built here. -/
def dlinit (trampoline handleAddr junk : Nat) (cb : Option (List Nat → Nat))
    (img : Image) (base size : Nat) (mode : DLMode) : InitRes :=
  if base = 0 then .err .dllNull
  else
    match dynWalkAux (dynInfo0 junk) img.dyn with
    | .error e => .err e
    | .ok info =>
      let gl := gotLengthOf info
      let got1 := (img.got.set 0 trampoline).set 1 handleAddr
      let got2 := relocGotAux base got1 gl
      match symLoopAux cb img.strtab mode base gl info.symbolCount 0 img.symtab got2 info.firstGotSym with
      | .ubNullCallback => .ub
      | .errMapSymbol => .err .mapSymbol
      | .ok syms got3 =>
        .ok { base := base, mallocPtr := none, size := size, got := got3
              gotLength := gl, symtab := syms, symbolCount := info.symbolCount
              strtab := img.strtab, hash := img.hash }

/-- Constructor loop of dlinit (lines 577-583): with the u32 array under
__CTOR_LIST__ laid out as count :: functions, call lst[i] for i from
lst[0] down to 1. Returns the call order. -/
def ctorLoop (lst : List Nat) : Nat → List Nat
  | 0 => []
  | i + 1 => lst.getD (i + 1) 0 :: ctorLoop lst i

/-- Call order of the constructors dlinit invokes for a given
__CTOR_LIST__ array. -/
def ctorCalls (lst : List Nat) : List Nat :=
  ctorLoop lst (lst.getD 0 0)

/-- Destructor loop of dlclose (lines 613-619): call lst[i+1] for i from
0 up to lst[0] - 1. Returns the call order. -/
def dtorCalls (lst : List Nat) : List Nat :=
  (List.range (lst.getD 0 0)).map (fun i => lst.getD (i + 1) 0)

/-- Pointers dlclose frees (lines 624-627): the owned buffer when
malloc_ptr is set, then the handle itself (handleAddr names the
allocation of the DLL struct). A none handle is RTLD_DEFAULT, for which
dlclose returns at once. -/
def dlcloseFreed (h : Option DLLS) (handleAddr : Nat) : List Nat :=
  match h with
  | none => []
  | some dll =>
    (match dll.mallocPtr with | some p => [p] | none => []) ++ [handleAddr]

/-- Result of dlopen: a handle, init failed (buffer freed, null
returned), the byte loader failed (null returned, nothing to free), or
dlinit reached undefined behaviour. -/
inductive OpenRes where
  | ok (dll : DLLS)
  | initFailedFreed
  | loaderFailed
  | ub
  deriving DecidableEq, Repr

/-- dlopen (dl.c lines 588-605). The BIOS byte loader _load_file is an
external collaborator, modelled by its outcome: none when it failed,
some (image, base, size) for the loaded buffer. On dlinit success the
handle's malloc_ptr is set to the handle's ptr field (the buffer base),
recording ownership; on dlinit failure the buffer is freed and null
returned. -/
def dlopenModel (trampoline handleAddr junk : Nat) (cb : Option (List Nat → Nat))
    (loaded : Option (Image × Nat × Nat)) (mode : DLMode) : OpenRes :=
  match loaded with
  | none => .loaderFailed
  | some (img, base, size) =>
    match dlinit trampoline handleAddr junk cb img base size mode with
    | .ok dll => .ok { dll with mallocPtr := some dll.base }
    | .err _ => .initFailedFreed
    | .ub => .ub

/-- Insertion of one valid line's (name, truncated address) pair: hash
the name and insert, as the loop body does. -/
def insHashed (nbucket : Nat) (t : MapTable) (p : List Nat × Nat) : MapTable :=
  insertEntry nbucket t (elfHash p.1) p.2

/-- Insertion of one (hash, address) pair, for stating the table
invariant over already-hashed data. -/
def insPair (nbucket : Nat) (t : MapTable) (p : Nat × Nat) : MapTable :=
  insertEntry nbucket t p.1 p.2

/-! ## Structure of the chains the parser builds

ChainList ht N v is states that starting from chain value v and following
the chain links of the hash-table list ht (bucket layout as in the code:
link of index i at slot 2 + N + i), the walk visits exactly the indices
is and terminates on the sentinel. -/

inductive ChainList (ht : List Nat) (N : Nat) : Nat → List Nat → Prop where
  | nil : ChainList ht N SENT []
  | cons (i : Nat) (is : List Nat) (hne : i ≠ SENT)
      (hnext : ChainList ht N (ht.getD (2 + N + i) 0) is) : ChainList ht N i (i :: is)

/-- Slot the chain-append walk ends on: the bucket-head slot itself for an
empty chain, else the link slot of the last index. -/
def lastSlot (N s : Nat) (is : List Nat) : Nat :=
  is.foldl (fun _ i => 2 + N + i) s

/-- Indices of the entries falling in bucket b, in insertion order: the
chain the parser builds for bucket b visits exactly these. -/
def bIdx (N : Nat) (l : List (Nat × Nat)) (b : Nat) : List Nat :=
  (List.range l.length).filter (fun i => decide ((l.getD i (0, 0)).1 % N = b))

/-- Invariant of the map structures after inserting the (hash, address)
pairs l into the fresh table of capacity E with N buckets: the layout
and header are intact, the entries are exactly l in order, every
bucket's chain visits exactly its indices, and the unwritten chain slots
still hold the sentinel. -/
structure TInv (N E : Nat) (l : List (Nat × Nat)) (t : MapTable) : Prop where
  hlen : t.ht.length = 2 + N + E
  hhead : t.ht.getD 0 0 = N
  hfill : t.entries = l.map (fun p => ⟨p.1, p.2⟩)
  hchain : ∀ b, b < N → ChainList t.ht N (t.ht.getD (2 + b) 0) (bIdx N l b)
  hrest : ∀ i, l.length ≤ i → i < E → t.ht.getD (2 + N + i) 0 = SENT

/-! ## Characterisation of the .dynamic walk -/

/-- Pure state update of one recognised .dynamic pair, with the format
checks stripped (they do not change the state when they pass). -/
def dynAssign (info : DynInfo) (p : Nat × Nat) : DynInfo :=
  if p.1 = DT_PLTGOT then { info with gotOff := some (p.2 % U32) }
  else if p.1 = DT_HASH then { info with hashOff := some (p.2 % U32) }
  else if p.1 = DT_STRTAB then { info with strtabOff := some (p.2 % U32) }
  else if p.1 = DT_SYMTAB then { info with symtabOff := some (p.2 % U32) }
  else if p.1 = DT_MIPS_LOCAL_GOTNO then { info with localGot := p.2 % U32 }
  else if p.1 = DT_MIPS_SYMTABNO then { info with symbolCount := p.2 % U32 }
  else if p.1 = DT_MIPS_GOTSYM then { info with firstGotSym := p.2 % U32 }
  else info

/-- The .dynamic pairs the walk actually visits: those before the zero
terminator. -/
def dynPrefix (dyn : List (Nat × Nat)) : List (Nat × Nat) :=
  dyn.takeWhile (fun p => p.1 ≠ 0)

/-- Value the walk leaves for one tag: the last occurrence before the
terminator wins; dflt is the initial value. -/
def lastTagValD (dyn : List (Nat × Nat)) (tag dflt : Nat) : Nat :=
  ((dynPrefix dyn).filter (fun p => p.1 = tag)).foldl (fun _ p => p.2 % U32) dflt

/-! ## Concrete inputs used by the witnesses and counterexamples -/

/-- Map text "a T 1\nb T 2\n" as bytes. -/
def mapTwoSyms : List Nat := [97, 32, 84, 32, 49, 10, 98, 32, 84, 32, 50, 10]

/-- Map text "a T 1\n" as bytes: a single valid symbol, stored at chain
index 0. -/
def mapOneSym : List Nat := [97, 32, 84, 32, 49, 10]

/-- Map text "a T 1\n\n" as bytes: one valid symbol and an empty second
line, so one hash bucket stays empty (its head keeps the sentinel). -/
def mapOneSymTwoLines : List Nat := [97, 32, 84, 32, 49, 10, 10]

/-- Map text "skip U 80030000\n" as bytes: one newline, zero valid
symbol lines (type U is dropped). -/
def mapOnlyInvalid : List Nat :=
  [115, 107, 105, 112, 32, 85, 32, 56, 48, 48, 51, 48, 48, 48, 48, 10]

/-- Line whose name token is 64 bytes long (64 times 'A') followed by
" 80010000". -/
def longNameLine : List Nat :=
  List.replicate 64 65 ++ [32, 56, 48, 48, 49, 48, 48, 48, 48]

/-- Module image with one undefined FUNC symbol whose relocated st_value
matches a GOT slot: LOCAL_GOTNO 4, SYMTABNO 2, GOTSYM 1, so got_length
is 3 and the eager scan starts at GOT index 1. -/
def imgOneExtern : Image :=
  { dyn := [(DT_MIPS_LOCAL_GOTNO, 4), (DT_MIPS_SYMTABNO, 2), (DT_MIPS_GOTSYM, 1)]
    got := [7, 7, 0x20, 0x100, 0x30]
    symtab := [⟨0, 0, 0, 0, 0⟩, ⟨0, 0x100, 0, 2, 0⟩]
    strtab := [102, 0]
    hash := [1, 2, 0, 0, 0] }

/-- Well-formed lazy-mode image: PLTGOT declared, SYMENT 16, version 1,
LOCAL_GOTNO 3, SYMTABNO 4, GOTSYM 2, all symbols null. -/
def imgLazy : Image :=
  { dyn := [(DT_PLTGOT, 0x40), (DT_SYMENT, 16), (DT_MIPS_RLD_VERSION, 1),
            (DT_MIPS_LOCAL_GOTNO, 3), (DT_MIPS_SYMTABNO, 4), (DT_MIPS_GOTSYM, 2)]
    got := [1, 2, 0x10, 0x20, 0x30]
    symtab := [⟨0, 0, 0, 0, 0⟩, ⟨0, 0, 0, 0, 0⟩, ⟨0, 0, 0, 0, 0⟩, ⟨0, 0, 0, 0, 0⟩]
    strtab := [0]
    hash := [1, 4, 0, 0, 0, 0, 0] }

/-- The handle dlinit produces for imgLazy at base 0x80010000 with
trampoline 4096 and handle address 8192. -/
def dllLazy : DLLS :=
  { base := 2147549184, mallocPtr := none, size := 128
    got := [4096, 8192, 2147549200, 2147549216, 2147549232]
    gotLength := 3
    symtab := [⟨0, 0, 0, 0, 0⟩, ⟨0, 0, 0, 0, 0⟩, ⟨0, 0, 0, 0, 0⟩, ⟨0, 0, 0, 0, 0⟩]
    symbolCount := 4
    strtab := [0]
    hash := [1, 4, 0, 0, 0, 0, 0] }

/-- GOT of a dlinit result, empty on the failure outcomes; used to state
what eager resolution wrote. -/
def initGot : InitRes → List Nat
  | .ok dll => dll.got
  | _ => []

/-! ## Basic list lemmas used throughout -/

theorem getD_set_self {α : Type} (l : List α) (i : Nat) (x d : α) (h : i < l.length) :
    (l.set i x).getD i d = x := by
  simp [List.getD, List.getElem?_set, h]

theorem getD_set_ne {α : Type} (l : List α) {i j : Nat} (x d : α) (h : i ≠ j) :
    (l.set i x).getD j d = l.getD j d := by
  simp [List.getD, List.getElem?_set, h]

theorem getD_append_left {α : Type} (l m : List α) (i : Nat) (d : α) (h : i < l.length) :
    (l ++ m).getD i d = l.getD i d := by
  simp [List.getD, List.getElem?_append_left, h]

theorem getD_concat_self {α : Type} (l : List α) (x d : α) :
    (l ++ [x]).getD l.length d = x := by
  simp [List.getD, List.getElem?_append_right, Nat.le_refl]

theorem getD_map_of_lt {α β : Type} (f : α → β) (l : List α) (i : Nat) (d : β) (d' : α)
    (h : i < l.length) : (l.map f).getD i d = f (l.getD i d') := by
  simp [List.getD, List.getElem?_map, List.getElem?_eq_getElem, h]

theorem getD_eq_get {α : Type} (l : List α) (i : Nat) (d : α) (h : i < l.length) :
    l.getD i d = l.get ⟨i, h⟩ := by
  simp [List.getD, List.getElem?_eq_getElem, h]

theorem getD_replicate_of_lt {α : Type} (n k : Nat) (c d : α) (h : k < n) :
    (List.replicate n c).getD k d = c := by
  simp [List.getD, List.getElem?_eq_getElem, h, List.length_replicate, List.getElem_replicate]

theorem getD_cons_two {α : Type} (a b : α) (m : List α) (k : Nat) (d : α) :
    (a :: b :: m).getD (2 + k) d = m.getD k d := by
  rw [show 2 + k = k + 2 by omega]
  rfl

theorem getD_mem_of_lt {α : Type} (l : List α) (i : Nat) (d : α) (h : i < l.length) :
    l.getD i d ∈ l := by
  rw [getD_eq_get l i d h]
  exact List.get_mem l i h


theorem getD_eq_getElem {α : Type} (l : List α) (i : Nat) (d : α) (h : i < l.length) :
    l.getD i d = l[i] := by
  simp [List.getD, List.getElem?_eq_getElem, h]

theorem elfHashAux_eq_foldl (s : List Nat) : ∀ v : Nat,
    elfHashAux v s = (cstr s).foldl elfHashStep v := by
  induction s with
  | nil => intro v; rfl
  | cons c rest ih =>
    intro v
    by_cases hc : c = 0
    · subst hc; simp [elfHashAux, cstr]
    · simp only [elfHashAux, if_neg hc, cstr, List.takeWhile_cons, ih]
      simp [hc, cstr]

theorem ctorLoop_eq_take_reverse (fs : List Nat) (c : Nat) :
    ∀ n : Nat, n ≤ fs.length → ctorLoop (c :: fs) n = (fs.take n).reverse := by
  intro n
  induction n with
  | zero => intro _; rfl
  | succ n ih =>
    intro hn
    have hlt : n < fs.length := hn
    have h2 : fs.take (n + 1) = fs.take n ++ [fs[n]] := by
      rw [List.take_succ]
      simp [List.getElem?_eq_getElem, hlt]
    rw [ctorLoop, ih (Nat.le_of_lt hlt)]
    have h3 : (c :: fs).getD (n + 1) 0 = fs.getD n 0 := rfl
    rw [h3, getD_eq_getElem fs n 0 hlt, h2, List.reverse_append]
    rfl

theorem range_map_getD_eq_take (fs : List Nat) :
    ∀ n : Nat, n ≤ fs.length → (List.range n).map (fun i => fs.getD i 0) = fs.take n := by
  intro n
  induction n with
  | zero => intro _; rfl
  | succ n ih =>
    intro hn
    have hlt : n < fs.length := hn
    have h2 : fs.take (n + 1) = fs.take n ++ [fs[n]] := by
      rw [List.take_succ]
      simp [List.getElem?_eq_getElem, hlt]
    rw [List.range_succ, List.map_append, ih (Nat.le_of_lt hlt), h2]
    simp [List.getD, List.getElem?_eq_getElem, hlt]

theorem parseStep_eq_foldl (buf : List Nat) (nbucket : Nat) :
    ∀ (f pos : Nat) (t : MapTable),
      parseStep buf nbucket f pos t = (validEntriesAux buf f pos).foldl (insHashed nbucket) t := by
  intro f
  induction f with
  | zero => intro pos t; rfl
  | succ f ih =>
    intro pos t
    simp only [parseStep, validEntriesAux]
    by_cases h : pos < buf.length ∧ buf.getD pos 0 ≠ 0
    · simp only [if_pos h]
      by_cases hv : lineValid (scanLine (cstr (buf.drop pos))) = true
      · simp only [if_pos hv, ih, List.foldl_cons]
        rfl
      · simp only [if_neg hv, ih]
    · simp only [if_neg h, List.foldl_nil]

theorem foldl_insHashed_eq_insPair (nbucket : Nat) (l : List (List Nat × Nat)) (t : MapTable) :
    l.foldl (insHashed nbucket) t =
      (l.map (fun p => (elfHash p.1, p.2))).foldl (insPair nbucket) t := by
  rw [List.foldl_map]
  rfl

theorem foldl_insPair_entries (nbucket : Nat) :
    ∀ (l : List (Nat × Nat)) (t : MapTable),
      (l.foldl (insPair nbucket) t).entries = t.entries ++ l.map (fun p => ⟨p.1, p.2⟩) := by
  intro l
  induction l with
  | nil => intro t; simp
  | cons p l ih =>
    intro t
    rw [List.foldl_cons, ih]
    simp [insPair, insertEntry]

theorem parseTable_entries (buf : List Nat) :
    (parseTable buf).entries =
      (validEntries buf).map (fun p => (⟨elfHash p.1, p.2⟩ : MapEntry)) := by
  rw [parseTable, parseStep_eq_foldl, foldl_insHashed_eq_insPair, foldl_insPair_entries]
  simp [table0, validEntries, List.map_map]

theorem SENT_ne_zero : SENT ≠ 0 := by decide

theorem lastSlot_cons (N s i : Nat) (is : List Nat) :
    lastSlot N s (i :: is) = lastSlot N (2 + N + i) is := rfl

theorem lastSlot_mem (N : Nat) :
    ∀ (is : List Nat) (s : Nat), is ≠ [] → ∃ i0, i0 ∈ is ∧ lastSlot N s is = 2 + N + i0 := by
  intro is
  induction is with
  | nil => intro s h; exact absurd rfl h
  | cons i is ih =>
    intro s _
    by_cases hnil : is = []
    · subst hnil
      exact ⟨i, List.mem_singleton_self i, rfl⟩
    · obtain ⟨i0, hmem, heq⟩ := ih (2 + N + i) hnil
      exact ⟨i0, List.mem_cons_of_mem i hmem, heq⟩

theorem ChainList_nil_inv {ht : List Nat} {N v : Nat} (h : ChainList ht N v []) : v = SENT := by
  cases h
  rfl

theorem chainFind_spec (N : Nat) :
    ∀ (is : List Nat) (ht : List Nat) (v slot fuel : Nat),
      ChainList ht N v is → ht.getD slot 0 = v → is.length < fuel →
      chainFind ht N slot fuel = lastSlot N slot is := by
  intro is
  induction is with
  | nil =>
    intro ht v slot fuel hc hslot hfuel
    have hv : v = SENT := ChainList_nil_inv hc
    cases fuel with
    | zero => simp at hfuel
    | succ f =>
      rw [chainFind, hslot, hv, if_pos rfl]
      rfl
  | cons i is ih =>
    intro ht v slot fuel hc hslot hfuel
    cases hc with
    | cons _ _ hne hnext =>
      cases fuel with
      | zero => simp at hfuel
      | succ f =>
        rw [chainFind, hslot, if_neg hne, lastSlot_cons]
        refine ih ht _ (2 + N + i) f hnext rfl ?_
        simp only [List.length_cons] at hfuel
        omega

theorem ChainList_congr {ht ht2 : List Nat} {N : Nat} :
    ∀ {v : Nat} {is : List Nat}, ChainList ht N v is →
      (∀ i ∈ is, ht2.getD (2 + N + i) 0 = ht.getD (2 + N + i) 0) →
      ChainList ht2 N v is := by
  intro v is hc
  induction hc with
  | nil => intro _; exact .nil
  | cons i is hne hnext ih =>
    intro hsame
    refine .cons i is hne ?_
    rw [hsame i (List.mem_cons_self i is)]
    exact ih (fun k hk => hsame k (List.mem_cons_of_mem i hk))

theorem ChainList_snoc (N j : Nat) :
    ∀ (is : List Nat) (ht : List Nat) (v s0 : Nat),
      ChainList ht N v is → is ≠ [] → is.Nodup →
      (∀ i ∈ is, i < j) → j ≠ SENT →
      (∀ i ∈ is, 2 + N + i < ht.length) →
      ht.getD (2 + N + j) 0 = SENT →
      ChainList (ht.set (lastSlot N s0 is) j) N v (is ++ [j]) := by
  intro is
  induction is with
  | nil => intro ht v s0 _ h; exact absurd rfl h
  | cons i is ih =>
    intro ht v s0 hc _ hnodup hlt hjS hbound hnextj
    cases hc with
    | cons _ _ hne hnext =>
      by_cases hnil : is = []
      · subst hnil
        show ChainList (ht.set (2 + N + i) j) N i ([i] ++ [j])
        refine .cons i [j] hne ?_
        have hwr : (ht.set (2 + N + i) j).getD (2 + N + i) 0 = j :=
          getD_set_self ht (2 + N + i) j 0 (hbound i (List.mem_cons_self i []))
        rw [hwr]
        have hij : i < j := hlt i (List.mem_cons_self i [])
        have hnej : (2 + N + i) ≠ (2 + N + j) := by omega
        refine .cons j [] hjS ?_
        rw [getD_set_ne ht j 0 hnej, hnextj]
        exact .nil
      · rw [lastSlot_cons]
        have ihres := ih ht _ (2 + N + i) hnext hnil (List.Nodup.of_cons hnodup)
          (fun k hk => hlt k (List.mem_cons_of_mem i hk)) hjS
          (fun k hk => hbound k (List.mem_cons_of_mem i hk)) hnextj
        obtain ⟨i0, hi0mem, hi0⟩ := lastSlot_mem N is (2 + N + i) hnil
        have hii0 : i ≠ i0 := by
          intro hcontra
          exact (List.nodup_cons.mp hnodup).1 (hcontra ▸ hi0mem)
        have hslotne : lastSlot N (2 + N + i) is ≠ 2 + N + i := by
          rw [hi0]; omega
        refine .cons i (is ++ [j]) hne ?_
        rw [getD_set_ne ht j 0 hslotne]
        exact ihres

theorem bIdx_mem {N : Nat} {l : List (Nat × Nat)} {b i : Nat} :
    i ∈ bIdx N l b ↔ i < l.length ∧ (l.getD i (0, 0)).1 % N = b := by
  simp [bIdx, List.mem_filter, List.mem_range]

theorem bIdx_nodup (N : Nat) (l : List (Nat × Nat)) (b : Nat) : (bIdx N l b).Nodup :=
  List.Nodup.filter _ (List.nodup_range _)

theorem bIdx_length_le (N : Nat) (l : List (Nat × Nat)) (b : Nat) :
    (bIdx N l b).length ≤ l.length := by
  calc (bIdx N l b).length ≤ (List.range l.length).length := List.length_filter_le _ _
  _ = l.length := List.length_range _

theorem bIdx_append (N : Nat) (l : List (Nat × Nat)) (q : Nat × Nat) (b : Nat) :
    bIdx N (l ++ [q]) b =
      if q.1 % N = b then bIdx N l b ++ [l.length] else bIdx N l b := by
  have hlen : (l ++ [q]).length = l.length + 1 := by simp
  have hfilter : ∀ i ∈ List.range l.length,
      (decide (((l ++ [q]).getD i (0, 0)).1 % N = b)) =
        (decide ((l.getD i (0, 0)).1 % N = b)) := by
    intro i hi
    rw [getD_append_left l [q] i (0, 0) (List.mem_range.mp hi)]
  have hq : ((l ++ [q]).getD l.length (0, 0)) = q := getD_concat_self l q (0, 0)
  rw [bIdx, hlen, List.range_succ, List.filter_append, List.filter_congr hfilter]
  by_cases hb : q.1 % N = b
  · rw [if_pos hb]
    simp [bIdx, hq, hb]
  · rw [if_neg hb]
    simp [bIdx, hq, hb]

theorem table0_getD_slot (N E k : Nat) (h : k < N + E) :
    (table0 N E).ht.getD (2 + k) 0 = SENT := by
  show ((N :: E :: List.replicate (N + E) SENT).getD (2 + k) 0) = SENT
  rw [getD_cons_two, getD_replicate_of_lt (N + E) k SENT 0 h]

theorem table0_TInv (N E : Nat) : TInv N E [] (table0 N E) := by
  refine ⟨?_, rfl, rfl, ?_, ?_⟩
  · simp [table0]
    omega
  · intro b hb
    have h1 : (table0 N E).ht.getD (2 + b) 0 = SENT := table0_getD_slot N E b (by omega)
    have h2 : bIdx N ([] : List (Nat × Nat)) b = [] := rfl
    rw [h1, h2]
    exact .nil
  · intro i h0 hE
    have : (table0 N E).ht.getD (2 + (N + i)) 0 = SENT := table0_getD_slot N E (N + i) (by omega)
    rw [show 2 + N + i = 2 + (N + i) by omega]
    exact this

theorem TInv_insert (N E : Nat) (l : List (Nat × Nat)) (t : MapTable) (h a : Nat)
    (inv : TInv N E l t) (hN : 0 < N) (hE : E ≤ SENT) (hcap : l.length < E) :
    TInv N E (l ++ [(h, a)]) (insPair N t (h, a)) := by
  have hb : h % N < N := Nat.mod_lt _ hN
  have hch := inv.hchain (h % N) hb
  have hjlen : t.entries.length = l.length := by rw [inv.hfill]; simp
  have hfuel : (bIdx N l (h % N)).length < t.ht.length := by
    have h1 := bIdx_length_le N l (h % N)
    have h2 := inv.hlen
    omega
  have hfind : chainFind t.ht N (2 + h % N) t.ht.length =
      lastSlot N (2 + h % N) (bIdx N l (h % N)) :=
    chainFind_spec N (bIdx N l (h % N)) t.ht _ (2 + h % N) t.ht.length hch rfl hfuel
  have hform : insPair N t (h, a) =
      { ht := t.ht.set (lastSlot N (2 + h % N) (bIdx N l (h % N))) l.length
        entries := t.entries ++ [⟨h, a⟩] } := by
    simp [insPair, insertEntry, hfind, hjlen]
  rw [hform]
  have hmemlt : ∀ i ∈ bIdx N l (h % N), i < l.length := fun i hi => (bIdx_mem.mp hi).1
  have hbound : ∀ i ∈ bIdx N l (h % N), 2 + N + i < t.ht.length := by
    intro i hi
    have h1 := hmemlt i hi
    have h2 := inv.hlen
    omega
  have hjS : l.length ≠ SENT := by
    have h1 : SENT ≤ SENT := le_refl _
    omega
  have hnextj : t.ht.getD (2 + N + l.length) 0 = SENT := inv.hrest l.length (le_refl _) hcap
  have hSor : lastSlot N (2 + h % N) (bIdx N l (h % N)) = 2 + h % N ∨
      ∃ i0, i0 ∈ bIdx N l (h % N) ∧
        lastSlot N (2 + h % N) (bIdx N l (h % N)) = 2 + N + i0 := by
    by_cases hnil : bIdx N l (h % N) = []
    · left; rw [hnil]; rfl
    · right; exact lastSlot_mem N _ _ hnil
  have hSlt : lastSlot N (2 + h % N) (bIdx N l (h % N)) < t.ht.length := by
    rcases hSor with hS | ⟨i0, hi0, hS⟩
    · rw [hS]
      have := inv.hlen
      omega
    · rw [hS]
      exact hbound i0 hi0
  refine ⟨?_, ?_, ?_, ?_, ?_⟩
  · simp [inv.hlen]
  · have hS0 : lastSlot N (2 + h % N) (bIdx N l (h % N)) ≠ 0 := by
      rcases hSor with hS | ⟨i0, _, hS⟩ <;> (rw [hS]; omega)
    show (t.ht.set _ l.length).getD 0 0 = N
    rw [getD_set_ne t.ht l.length 0 hS0]
    exact inv.hhead
  · show t.entries ++ [(⟨h, a⟩ : MapEntry)] = (l ++ [(h, a)]).map (fun p => ⟨p.1, p.2⟩)
    rw [inv.hfill]
    simp
  · intro b' hb'
    rw [bIdx_append]
    show ChainList (t.ht.set _ l.length) N ((t.ht.set _ l.length).getD (2 + b') 0) _
    by_cases hbb : h % N = b'
    · subst hbb
      rw [if_pos rfl]
      by_cases hnil : bIdx N l (h % N) = []
      · have hS : lastSlot N (2 + h % N) (bIdx N l (h % N)) = 2 + h % N := by
          rw [hnil]; rfl
        rw [hS, hnil]
        have hhd : (t.ht.set (2 + h % N) l.length).getD (2 + h % N) 0 = l.length :=
          getD_set_self t.ht (2 + h % N) l.length 0 (by rw [← hS]; exact hSlt)
        rw [hhd]
        show ChainList _ N l.length [l.length]
        refine .cons l.length [] hjS ?_
        have hne2 : (2 + h % N) ≠ (2 + N + l.length) := by omega
        rw [getD_set_ne t.ht l.length 0 hne2, hnextj]
        exact .nil
      · obtain ⟨i0, hi0, hS⟩ := lastSlot_mem N (bIdx N l (h % N)) (2 + h % N) hnil
        have hheadne : lastSlot N (2 + h % N) (bIdx N l (h % N)) ≠ 2 + h % N := by
          rw [hS]; omega
        have hsnoc := ChainList_snoc N l.length (bIdx N l (h % N)) t.ht _ (2 + h % N) hch hnil
          (bIdx_nodup N l (h % N)) hmemlt hjS hbound hnextj
        rw [getD_set_ne t.ht l.length 0 hheadne]
        exact hsnoc
    · rw [if_neg hbb]
      have hSneq : lastSlot N (2 + h % N) (bIdx N l (h % N)) ≠ 2 + b' := by
        rcases hSor with hS | ⟨i0, _, hS⟩
        · rw [hS]
          intro hcontra
          exact hbb (by omega)
        · rw [hS]; omega
      rw [getD_set_ne t.ht l.length 0 hSneq]
      refine ChainList_congr (inv.hchain b' hb') ?_
      intro i hi
      have hSne2 : lastSlot N (2 + h % N) (bIdx N l (h % N)) ≠ 2 + N + i := by
        rcases hSor with hS | ⟨i0, hi0, hS⟩
        · rw [hS]
          have := hb
          omega
        · rw [hS]
          have hne : i0 ≠ i := by
            intro hcontra
            have hp1 := (bIdx_mem.mp hi0).2
            have hp2 := (bIdx_mem.mp hi).2
            rw [hcontra] at hp1
            rw [hp1] at hp2
            exact hbb hp2
          omega
      rw [getD_set_ne t.ht l.length 0 hSne2]
  · intro i hi hiE
    simp only [List.length_append, List.length_cons, List.length_nil] at hi
    have hSne : lastSlot N (2 + h % N) (bIdx N l (h % N)) ≠ 2 + N + i := by
      rcases hSor with hS | ⟨i0, hi0, hS⟩
      · rw [hS]
        have := hb
        omega
      · rw [hS]
        have := hmemlt i0 hi0
        omega
    show (t.ht.set _ l.length).getD (2 + N + i) 0 = SENT
    rw [getD_set_ne t.ht l.length 0 hSne]
    exact inv.hrest i (by omega) hiE

theorem TInv_foldl (N E : Nat) (hE : E ≤ SENT) (hN : 0 < N) :
    ∀ l : List (Nat × Nat), l.length ≤ E →
      TInv N E l (l.foldl (insPair N) (table0 N E)) := by
  intro l
  induction l using List.reverseRecOn with
  | nil => intro _; exact table0_TInv N E
  | append_singleton l q ih =>
    intro hlen
    have hlen' : l.length < E := by
      simp only [List.length_append, List.length_cons, List.length_nil] at hlen
      omega
    rw [List.foldl_append, List.foldl_cons, List.foldl_nil]
    obtain ⟨h, a⟩ := q
    exact TInv_insert N E l _ h a (ih (Nat.le_of_lt hlen')) hN hE hlen'

/-! ## What the lookup walk does on a well-formed chain -/

theorem lookupWalk_spec (N hq : Nat) (entries : List MapEntry) (ht : List Nat)
    (hlenS : entries.length ≤ SENT) :
    ∀ (is : List Nat) (v fuel : Nat), ChainList ht N v is →
      0 ∉ is → (∀ i ∈ is, i < entries.length) → is.length < fuel →
      lookupWalk ht entries N hq v fuel =
        match is.find? (fun i => decide ((entries.getD i ⟨0, 0⟩).hash = hq)) with
        | some i => .found (entries.getD i ⟨0, 0⟩).ptr
        | none => .oobRead SENT := by
  intro is
  induction is with
  | nil =>
    intro v fuel hc _ _ hfuel
    have hv : v = SENT := ChainList_nil_inv hc
    cases fuel with
    | zero => simp at hfuel
    | succ f =>
      subst hv
      rw [lookupWalk]
      rw [if_neg SENT_ne_zero, dif_neg (by omega : ¬ SENT < entries.length)]
      rfl
  | cons i is ih =>
    intro v fuel hc h0 hmem hfuel
    cases hc with
    | cons _ _ hne hnext =>
      cases fuel with
      | zero => simp at hfuel
      | succ f =>
        have hi0 : i ≠ 0 := fun hcontra => h0 (hcontra ▸ List.mem_cons_self i is)
        have hilt : i < entries.length := hmem i (List.mem_cons_self i is)
        rw [lookupWalk, if_neg hi0, dif_pos hilt]
        have hgd : entries.getD i ⟨0, 0⟩ = entries.get ⟨i, hilt⟩ := getD_eq_get entries i _ hilt
        by_cases hh : hq = (entries.get ⟨i, hilt⟩).hash
        · have hdec : (decide ((entries.getD i ⟨0, 0⟩).hash = hq)) = true := by
            rw [hgd, ← hh]
            simp
          have hfind : List.find? (fun k => decide ((entries.getD k ⟨0, 0⟩).hash = hq)) (i :: is) = some i :=
            List.find?_cons_of_pos is hdec
          rw [if_pos hh, hfind]
          exact congrArg (fun e => LookupOutcome.found e.ptr) hgd.symm
        · have hdec : (decide ((entries.getD i ⟨0, 0⟩).hash = hq)) = false := by
            rw [hgd]
            simp only [decide_eq_false_iff_not]
            exact fun hcontra => hh hcontra.symm
          have hfind : List.find? (fun k => decide ((entries.getD k ⟨0, 0⟩).hash = hq)) (i :: is) =
              List.find? (fun k => decide ((entries.getD k ⟨0, 0⟩).hash = hq)) is :=
            List.find?_cons_of_neg is (by simp only [hdec]; simp)
          rw [if_neg hh, hfind]
          refine ih _ f hnext (fun hc2 => h0 (List.mem_cons_of_mem i hc2))
            (fun k hk => hmem k (List.mem_cons_of_mem i hk)) ?_
          simp only [List.length_cons] at hfuel
          omega

theorem parseTable_TInv (buf : List Nat)
    (hWF : (validEntries buf).length ≤ countNewlines buf)
    (hN : 0 < countNewlines buf)
    (hE : countNewlines buf ≤ SENT) :
    TInv (countNewlines buf) (countNewlines buf)
      ((validEntries buf).map (fun p => (elfHash p.1, p.2)))
      (parseTable buf) := by
  rw [parseTable, parseStep_eq_foldl, foldl_insHashed_eq_insPair]
  rw [show validEntriesAux buf (buf.length + 1) 0 = validEntries buf from rfl]
  refine TInv_foldl _ _ hE hN _ ?_
  simpa using hWF

theorem getSymbol_parse_found (buf n : List Nat) (a : Nat)
    (hWF : (validEntries buf).length ≤ countNewlines buf)
    (hE : countNewlines buf ≤ SENT)
    (hmem : (n, a) ∈ validEntries buf)
    (hcol : ∀ p ∈ validEntries buf, elfHash p.1 = elfHash n → p.2 = a)
    (hb0 : elfHash ((validEntries buf).headD ([], 0)).1 % countNewlines buf ≠
      elfHash n % countNewlines buf) :
    getSymbol (some (parseTable buf)) n = .found a := by
  have hnil : validEntries buf ≠ [] := by
    intro hcontra
    rw [hcontra] at hmem
    exact List.not_mem_nil _ hmem
  have hN : 0 < countNewlines buf := by
    have h1 : 0 < (validEntries buf).length := List.length_pos.mpr hnil
    omega
  have inv := parseTable_TInv buf hWF hN hE
  have hlhl : ((validEntries buf).map (fun p => (elfHash p.1, p.2))).length =
      (validEntries buf).length := List.length_map _ _
  have hentlen : (parseTable buf).entries.length = (validEntries buf).length := by
    rw [inv.hfill]
    simp
  have hb : elfHash n % countNewlines buf < countNewlines buf := Nat.mod_lt _ hN
  have hch := inv.hchain (elfHash n % countNewlines buf) hb
  -- getSymbol unfolds to the chain walk from this bucket's head
  show lookupWalk (parseTable buf).ht (parseTable buf).entries
      ((parseTable buf).ht.getD 0 0) (elfHash n)
      ((parseTable buf).ht.getD (2 + elfHash n % ((parseTable buf).ht.getD 0 0)) 0)
      ((parseTable buf).ht.length + 1) = .found a
  rw [inv.hhead]
  have hwalk := lookupWalk_spec (countNewlines buf) (elfHash n) (parseTable buf).entries
    (parseTable buf).ht (by omega)
    (bIdx (countNewlines buf) ((validEntries buf).map (fun p => (elfHash p.1, p.2)))
      (elfHash n % countNewlines buf))
    ((parseTable buf).ht.getD (2 + elfHash n % countNewlines buf) 0)
    ((parseTable buf).ht.length + 1) hch ?h0 ?hmemlt ?hfuel
  case h0 =>
    intro h0
    obtain ⟨hlt0, hp0⟩ := bIdx_mem.mp h0
    obtain ⟨p0, rest, hves⟩ := List.exists_cons_of_ne_nil hnil
    rw [hves] at hp0
    have : ((p0 :: rest).map (fun p => (elfHash p.1, p.2))).getD 0 (0, 0) =
        (elfHash p0.1, p0.2) := rfl
    rw [this] at hp0
    rw [hves] at hb0
    exact hb0 hp0
  case hmemlt =>
    intro i hi
    have := (bIdx_mem.mp hi).1
    omega
  case hfuel =>
    have h1 := bIdx_length_le (countNewlines buf)
      ((validEntries buf).map (fun p => (elfHash p.1, p.2))) (elfHash n % countNewlines buf)
    have h2 := inv.hlen
    omega
  rw [hwalk]
  -- the walked chain contains the index of (n, a), so find? succeeds
  obtain ⟨⟨m, hmlt⟩, hget⟩ := List.mem_iff_get.mp hmem
  have hmmem : m ∈ bIdx (countNewlines buf)
      ((validEntries buf).map (fun p => (elfHash p.1, p.2)))
      (elfHash n % countNewlines buf) := by
    refine bIdx_mem.mpr ⟨by omega, ?_⟩
    have h1 : ((validEntries buf).map (fun p => (elfHash p.1, p.2))).getD m (0, 0) =
        (elfHash ((validEntries buf).getD m ([], 0)).1, ((validEntries buf).getD m ([], 0)).2) :=
      getD_map_of_lt _ _ m (0, 0) ([], 0) hmlt
    rw [h1, getD_eq_get _ m _ hmlt, hget]
  have hpm : (decide (((parseTable buf).entries.getD m ⟨0, 0⟩).hash = elfHash n)) = true := by
    have h1 : (parseTable buf).entries.getD m ⟨0, 0⟩ =
        (⟨elfHash ((validEntries buf).getD m ([], 0)).1,
          ((validEntries buf).getD m ([], 0)).2⟩ : MapEntry) := by
      rw [inv.hfill]
      have := getD_map_of_lt (fun p : Nat × Nat => (⟨p.1, p.2⟩ : MapEntry))
        ((validEntries buf).map (fun p => (elfHash p.1, p.2))) m ⟨0, 0⟩ (0, 0) (by omega)
      rw [this, getD_map_of_lt _ _ m (0, 0) ([], 0) hmlt]
    rw [h1, getD_eq_get _ m _ hmlt, hget]
    simp
  have hsome : (List.find? (fun k => decide (((parseTable buf).entries.getD k ⟨0, 0⟩).hash = elfHash n))
      (bIdx (countNewlines buf) ((validEntries buf).map (fun p => (elfHash p.1, p.2)))
        (elfHash n % countNewlines buf))).isSome = true := by
    rw [List.find?_isSome]
    exact ⟨m, hmmem, hpm⟩
  obtain ⟨i0, hf⟩ := Option.isSome_iff_exists.mp hsome
  have hp0raw := List.find?_some hf
  have hp0 : (decide (((parseTable buf).entries.getD i0 ⟨0, 0⟩).hash = elfHash n)) = true := hp0raw
  have hi0mem := List.mem_of_find?_eq_some hf
  have hi0lt : i0 < (validEntries buf).length := by
    have := (bIdx_mem.mp hi0mem).1
    omega
  have hq : (parseTable buf).entries.getD i0 ⟨0, 0⟩ =
      (⟨elfHash ((validEntries buf).getD i0 ([], 0)).1,
        ((validEntries buf).getD i0 ([], 0)).2⟩ : MapEntry) := by
    rw [inv.hfill]
    have := getD_map_of_lt (fun p : Nat × Nat => (⟨p.1, p.2⟩ : MapEntry))
      ((validEntries buf).map (fun p => (elfHash p.1, p.2))) i0 ⟨0, 0⟩ (0, 0) (by omega)
    rw [this, getD_map_of_lt _ _ i0 (0, 0) ([], 0) hi0lt]
  have hhash : elfHash ((validEntries buf).getD i0 ([], 0)).1 = elfHash n := by
    have := of_decide_eq_true hp0
    rw [hq] at this
    exact this
  have haddr : ((validEntries buf).getD i0 ([], 0)).2 = a :=
    hcol _ (getD_mem_of_lt _ i0 _ hi0lt) hhash
  rw [hf]
  show LookupOutcome.found ((parseTable buf).entries.getD i0 ⟨0, 0⟩).ptr = LookupOutcome.found a
  rw [hq]
  show LookupOutcome.found ((validEntries buf).getD i0 ([], 0)).2 = LookupOutcome.found a
  rw [haddr]

theorem dynWalkAux_ok_eq : ∀ (dyn : List (Nat × Nat)) (info info' : DynInfo),
    dynWalkAux info dyn = .ok info' → info' = (dynPrefix dyn).foldl dynAssign info := by
  intro dyn
  induction dyn with
  | nil =>
    intro info info' hw
    cases hw
    rfl
  | cons p rest ih =>
    intro info info' hw
    obtain ⟨tag, v⟩ := p
    by_cases h0 : tag = 0
    · subst h0
      rw [dynWalkAux, if_pos rfl] at hw
      cases hw
      rfl
    · have hpre : dynPrefix ((tag, v) :: rest) = (tag, v) :: dynPrefix rest := by
        simp [dynPrefix, List.takeWhile_cons, h0]
      rw [hpre, List.foldl_cons]
      rw [dynWalkAux, if_neg h0] at hw
      by_cases h1 : tag = DT_PLTGOT
      · rw [if_pos h1] at hw
        have := ih _ _ hw
        rw [this, dynAssign]
        simp [h1, h0]
      · rw [if_neg h1] at hw
        by_cases h2 : tag = DT_HASH
        · rw [if_pos h2] at hw
          have := ih _ _ hw
          rw [this, dynAssign]
          simp [h2, h0, DT_HASH, DT_PLTGOT]
        · rw [if_neg h2] at hw
          by_cases h3 : tag = DT_STRTAB
          · rw [if_pos h3] at hw
            have := ih _ _ hw
            rw [this, dynAssign]
            simp [h3, h0, DT_STRTAB, DT_PLTGOT, DT_HASH]
          · rw [if_neg h3] at hw
            by_cases h4 : tag = DT_SYMTAB
            · rw [if_pos h4] at hw
              have := ih _ _ hw
              rw [this, dynAssign]
              simp [h4, h0, DT_SYMTAB, DT_PLTGOT, DT_HASH, DT_STRTAB]
            · rw [if_neg h4] at hw
              by_cases h5 : tag = DT_SYMENT
              · rw [if_pos h5] at hw
                by_cases hc : v % U32 ≠ 16
                · rw [if_pos hc] at hw
                  cases hw
                · rw [if_neg hc] at hw
                  have := ih _ _ hw
                  rw [this, dynAssign]
                  simp [h5, h0, DT_SYMENT, DT_PLTGOT, DT_HASH, DT_STRTAB, DT_SYMTAB,
                    DT_MIPS_LOCAL_GOTNO, DT_MIPS_SYMTABNO, DT_MIPS_GOTSYM]
              · rw [if_neg h5] at hw
                by_cases h6 : tag = DT_MIPS_RLD_VERSION
                · rw [if_pos h6] at hw
                  by_cases hc : v % U32 ≠ 1
                  · rw [if_pos hc] at hw
                    cases hw
                  · rw [if_neg hc] at hw
                    have := ih _ _ hw
                    rw [this, dynAssign]
                    simp [h6, h0, DT_MIPS_RLD_VERSION, DT_PLTGOT, DT_HASH, DT_STRTAB,
                      DT_SYMTAB, DT_MIPS_LOCAL_GOTNO, DT_MIPS_SYMTABNO, DT_MIPS_GOTSYM]
                · rw [if_neg h6] at hw
                  by_cases h7 : tag = DT_MIPS_FLAGS
                  · rw [if_pos h7] at hw
                    by_cases hc : v % U32 &&& RHF_QUICKSTART ≠ 0
                    · rw [if_pos hc] at hw
                      cases hw
                    · rw [if_neg hc] at hw
                      have := ih _ _ hw
                      rw [this, dynAssign]
                      simp [h7, h0, DT_MIPS_FLAGS, DT_PLTGOT, DT_HASH, DT_STRTAB,
                        DT_SYMTAB, DT_MIPS_LOCAL_GOTNO, DT_MIPS_SYMTABNO, DT_MIPS_GOTSYM]
                  · rw [if_neg h7] at hw
                    by_cases h8 : tag = DT_MIPS_LOCAL_GOTNO
                    · rw [if_pos h8] at hw
                      have := ih _ _ hw
                      rw [this, dynAssign]
                      simp [h8, h0, DT_MIPS_LOCAL_GOTNO, DT_PLTGOT, DT_HASH, DT_STRTAB, DT_SYMTAB]
                    · rw [if_neg h8] at hw
                      by_cases h9 : tag = DT_MIPS_BASE_ADDRESS
                      · rw [if_pos h9] at hw
                        by_cases hc : v % U32 ≠ 0
                        · rw [if_pos hc] at hw
                          cases hw
                        · rw [if_neg hc] at hw
                          have := ih _ _ hw
                          rw [this, dynAssign]
                          simp [h9, h0, DT_MIPS_BASE_ADDRESS, DT_PLTGOT, DT_HASH, DT_STRTAB,
                            DT_SYMTAB, DT_MIPS_LOCAL_GOTNO, DT_MIPS_SYMTABNO, DT_MIPS_GOTSYM]
                      · rw [if_neg h9] at hw
                        by_cases h10 : tag = DT_MIPS_SYMTABNO
                        · rw [if_pos h10] at hw
                          have := ih _ _ hw
                          rw [this, dynAssign]
                          simp [h10, h0, DT_MIPS_SYMTABNO, DT_PLTGOT, DT_HASH, DT_STRTAB,
                            DT_SYMTAB, DT_MIPS_LOCAL_GOTNO]
                        · rw [if_neg h10] at hw
                          by_cases h11 : tag = DT_MIPS_GOTSYM
                          · rw [if_pos h11] at hw
                            have := ih _ _ hw
                            rw [this, dynAssign]
                            simp [h11, h0, DT_MIPS_GOTSYM, DT_PLTGOT, DT_HASH, DT_STRTAB,
                              DT_SYMTAB, DT_MIPS_LOCAL_GOTNO, DT_MIPS_SYMTABNO]
                          · rw [if_neg h11] at hw
                            have := ih _ _ hw
                            rw [this, dynAssign]
                            simp [h0, h1, h2, h3, h4, h8, h10, h11]

theorem dynAssign_localGot (info : DynInfo) (p : Nat × Nat) :
    (dynAssign info p).localGot =
      if p.1 = DT_MIPS_LOCAL_GOTNO then p.2 % U32 else info.localGot := by
  unfold dynAssign
  split_ifs <;> simp_all [DT_PLTGOT, DT_HASH, DT_STRTAB, DT_SYMTAB,
    DT_MIPS_LOCAL_GOTNO, DT_MIPS_SYMTABNO, DT_MIPS_GOTSYM]

theorem dynAssign_symbolCount (info : DynInfo) (p : Nat × Nat) :
    (dynAssign info p).symbolCount =
      if p.1 = DT_MIPS_SYMTABNO then p.2 % U32 else info.symbolCount := by
  unfold dynAssign
  split_ifs <;> simp_all [DT_PLTGOT, DT_HASH, DT_STRTAB, DT_SYMTAB,
    DT_MIPS_LOCAL_GOTNO, DT_MIPS_SYMTABNO, DT_MIPS_GOTSYM]

theorem dynAssign_firstGotSym (info : DynInfo) (p : Nat × Nat) :
    (dynAssign info p).firstGotSym =
      if p.1 = DT_MIPS_GOTSYM then p.2 % U32 else info.firstGotSym := by
  unfold dynAssign
  split_ifs <;> simp_all [DT_PLTGOT, DT_HASH, DT_STRTAB, DT_SYMTAB,
    DT_MIPS_LOCAL_GOTNO, DT_MIPS_SYMTABNO, DT_MIPS_GOTSYM]

theorem foldl_dynAssign_localGot :
    ∀ (l : List (Nat × Nat)) (info : DynInfo),
      (l.foldl dynAssign info).localGot =
        (l.filter (fun p => p.1 = DT_MIPS_LOCAL_GOTNO)).foldl
          (fun _ p => p.2 % U32) info.localGot := by
  intro l
  induction l with
  | nil => intro info; rfl
  | cons p rest ih =>
    intro info
    rw [List.foldl_cons, ih, List.filter_cons]
    by_cases hp : p.1 = DT_MIPS_LOCAL_GOTNO
    · simp [hp, dynAssign_localGot]
    · simp [hp, dynAssign_localGot]

theorem foldl_dynAssign_symbolCount :
    ∀ (l : List (Nat × Nat)) (info : DynInfo),
      (l.foldl dynAssign info).symbolCount =
        (l.filter (fun p => p.1 = DT_MIPS_SYMTABNO)).foldl
          (fun _ p => p.2 % U32) info.symbolCount := by
  intro l
  induction l with
  | nil => intro info; rfl
  | cons p rest ih =>
    intro info
    rw [List.foldl_cons, ih, List.filter_cons]
    by_cases hp : p.1 = DT_MIPS_SYMTABNO
    · simp [hp, dynAssign_symbolCount]
    · simp [hp, dynAssign_symbolCount]

theorem foldl_dynAssign_firstGotSym :
    ∀ (l : List (Nat × Nat)) (info : DynInfo),
      (l.foldl dynAssign info).firstGotSym =
        (l.filter (fun p => p.1 = DT_MIPS_GOTSYM)).foldl
          (fun _ p => p.2 % U32) info.firstGotSym := by
  intro l
  induction l with
  | nil => intro info; rfl
  | cons p rest ih =>
    intro info
    rw [List.foldl_cons, ih, List.filter_cons]
    by_cases hp : p.1 = DT_MIPS_GOTSYM
    · simp [hp, dynAssign_firstGotSym]
    · simp [hp, dynAssign_firstGotSym]

theorem dynWalk_fields (dyn : List (Nat × Nat)) (junk : Nat) (info : DynInfo)
    (hw : dynWalkAux (dynInfo0 junk) dyn = .ok info) :
    info.localGot = lastTagValD dyn DT_MIPS_LOCAL_GOTNO 0 ∧
    info.symbolCount = lastTagValD dyn DT_MIPS_SYMTABNO junk ∧
    info.firstGotSym = lastTagValD dyn DT_MIPS_GOTSYM 0 := by
  have heq := dynWalkAux_ok_eq dyn _ _ hw
  subst heq
  refine ⟨?_, ?_, ?_⟩
  · rw [foldl_dynAssign_localGot]
    rfl
  · rw [foldl_dynAssign_symbolCount]
    rfl
  · rw [foldl_dynAssign_firstGotSym]
    rfl

/-! ## GOT relocation and the fixup loop -/

theorem length_relocGotAux (base : Nat) (got : List Nat) :
    ∀ n, (relocGotAux base got n).length = got.length := by
  intro n
  induction n with
  | zero => rfl
  | succ n ih => simp [relocGotAux, ih]

theorem relocGotAux_getD_lt_two (base : Nat) (got : List Nat) :
    ∀ (n k : Nat) (d : Nat), k < 2 → (relocGotAux base got n).getD k d = got.getD k d := by
  intro n
  induction n with
  | zero => intro k d _; rfl
  | succ n ih =>
    intro k d hk
    rw [relocGotAux, getD_set_ne _ _ d (by omega), ih k d hk]

theorem relocGotAux_getD_ge (base : Nat) (got : List Nat) :
    ∀ (n i : Nat), n ≤ i → (relocGotAux base got n).getD (2 + i) 0 = got.getD (2 + i) 0 := by
  intro n
  induction n with
  | zero => intro i _; rfl
  | succ n ih =>
    intro i hi
    rw [relocGotAux, getD_set_ne _ _ 0 (by omega), ih i (by omega)]

theorem relocGotAux_getD_hit (base : Nat) (got : List Nat) :
    ∀ (n i : Nat), i < n → 2 + i < got.length →
      (relocGotAux base got n).getD (2 + i) 0 = (got.getD (2 + i) 0 + base) % U32 := by
  intro n
  induction n with
  | zero => intro i hi _; omega
  | succ n ih =>
    intro i hi hlen
    by_cases hin : i = n
    · subst hin
      rw [relocGotAux,
        getD_set_self _ (2 + i) _ 0 (by rw [length_relocGotAux]; exact hlen),
        relocGotAux_getD_ge base got i i (le_refl i)]
    · rw [relocGotAux, getD_set_ne _ _ 0 (by omega), ih i (by omega) hlen]

theorem symLoopAux_lazy_ok (cb : Option (List Nat → Nat)) (st : List Nat) (base gl : Nat) :
    ∀ (n i : Nat) (syms : List ElfSym) (got : List Nat) (ofs : Nat),
      ∃ syms2, symLoopAux cb st .lazy base gl n i syms got ofs = .ok syms2 got := by
  intro n
  induction n with
  | zero => intro i syms got ofs; exact ⟨syms, rfl⟩
  | succ n ih =>
    intro i syms got ofs
    simp only [symLoopAux]
    by_cases h1 : (syms.getD i ⟨0, 0, 0, 0, 0⟩).st_value = 0
    · rw [if_pos h1]
      exact ih (i + 1) syms got ofs
    · rw [if_neg h1, if_pos (by decide : (DLMode.lazy ≠ DLMode.now))]
      exact ih (i + 1) _ got ofs

theorem symLoopAux_ok_got01 (cb : Option (List Nat → Nat)) (st : List Nat) (mode : DLMode)
    (base gl : Nat) :
    ∀ (n i : Nat) (syms : List ElfSym) (got : List Nat) (ofs : Nat)
      (syms2 : List ElfSym) (got2 : List Nat),
      symLoopAux cb st mode base gl n i syms got ofs = .ok syms2 got2 →
      (∀ (k : Nat), k < 2 → ∀ d : Nat, got2.getD k d = got.getD k d) ∧
        got2.length = got.length := by
  intro n
  induction n with
  | zero =>
    intro i syms got ofs syms2 got2 h
    rw [symLoopAux] at h
    cases h
    exact ⟨fun _ _ _ => rfl, rfl⟩
  | succ n ih =>
    intro i syms got ofs syms2 got2 h
    simp only [symLoopAux] at h
    split at h
    · exact ih _ _ _ _ _ _ h
    · split at h
      · exact ih _ _ _ _ _ _ h
      · split at h
        · exact ih _ _ _ _ _ _ h
        · split at h
          · split at h
            · cases h
            · split at h
              · cases h
              · obtain ⟨hk, hlen⟩ := ih _ _ _ _ _ _ h
                refine ⟨?_, ?_⟩
                · intro k hk2 d
                  rw [hk k hk2 d, getD_set_ne got _ d (by omega)]
                · rw [hlen]
                  simp
          · exact ih _ _ _ _ _ _ h

theorem dlinit_ok_inv (tr ha junk : Nat) (cb : Option (List Nat → Nat)) (img : Image)
    (base size : Nat) (mode : DLMode) (dll : DLLS)
    (h : dlinit tr ha junk cb img base size mode = .ok dll) :
    base ≠ 0 ∧ ∃ info, dynWalkAux (dynInfo0 junk) img.dyn = .ok info ∧
      ∃ syms2 got2,
        symLoopAux cb img.strtab mode base (gotLengthOf info) info.symbolCount 0 img.symtab
          (relocGotAux base ((img.got.set 0 tr).set 1 ha) (gotLengthOf info))
          info.firstGotSym = .ok syms2 got2 ∧
        dll = { base := base, mallocPtr := none, size := size, got := got2
                gotLength := gotLengthOf info, symtab := syms2
                symbolCount := info.symbolCount, strtab := img.strtab, hash := img.hash } := by
  simp only [dlinit] at h
  split at h
  · cases h
  case isFalse hb =>
    split at h
    case h_1 e heq => cases h
    case h_2 info heq =>
      split at h
      case h_1 heq2 => cases h
      case h_2 heq2 => cases h
      case h_3 syms2 got2 heq2 =>
        cases h
        exact ⟨hb, info, heq, syms2, got2, heq2, rfl⟩

/-! ## Name-token truncation by the %63s conversion -/

theorem scanLine_name_type_of_long (s : List Nat)
    (h : 63 < ((s.dropWhile isSpace).takeWhile (fun c => !isSpace c)).length) :
    (scanLine s).name = ((s.dropWhile isSpace).takeWhile (fun c => !isSpace c)).take 63 ∧
    (scanLine s).type0 = ((s.dropWhile isSpace).takeWhile (fun c => !isSpace c)).getD 63 0 := by
  have h63 : (63 : Nat) ≤ ((s.dropWhile isSpace).takeWhile (fun c => !isSpace c)).length :=
    Nat.le_of_lt h
  have hname : readToken 63 s =
      (((s.dropWhile isSpace).takeWhile (fun c => !isSpace c)).take 63,
        (s.dropWhile isSpace).drop 63) := by
    rw [readToken]
    have hlen : (((s.dropWhile isSpace).takeWhile (fun c => !isSpace c)).take 63).length = 63 := by
      simp [List.length_take]
      omega
    rw [hlen]
  have hsplit : (s.dropWhile isSpace).drop 63 =
      ((s.dropWhile isSpace).takeWhile (fun c => !isSpace c)).drop 63 ++
        (s.dropWhile isSpace).dropWhile (fun c => !isSpace c) := by
    conv =>
      lhs
      rw [← List.takeWhile_append_dropWhile (fun c => !isSpace c) (s.dropWhile isSpace)]
    rw [List.drop_append_of_le_length h63]
  have hdrop : ((s.dropWhile isSpace).takeWhile (fun c => !isSpace c)).drop 63 =
      ((s.dropWhile isSpace).takeWhile (fun c => !isSpace c))[63] ::
        ((s.dropWhile isSpace).takeWhile (fun c => !isSpace c)).drop 64 :=
    List.drop_eq_getElem_cons h
  have hp63 : ¬ isSpace (((s.dropWhile isSpace).takeWhile (fun c => !isSpace c))[63]) = true := by
    have hmem : ((s.dropWhile isSpace).takeWhile (fun c => !isSpace c))[63] ∈
        (s.dropWhile isSpace).takeWhile (fun c => !isSpace c) := List.getElem_mem h
    have := List.mem_takeWhile_imp hmem
    simp at this
    simp [this]
  have htype : readToken 1 ((s.dropWhile isSpace).drop 63) =
      ([((s.dropWhile isSpace).takeWhile (fun c => !isSpace c))[63]],
        (((s.dropWhile isSpace).takeWhile (fun c => !isSpace c)).drop 64 ++
          (s.dropWhile isSpace).dropWhile (fun c => !isSpace c))) := by
    rw [readToken, hsplit, hdrop]
    rw [List.cons_append,
      show (((((s.dropWhile isSpace).takeWhile (fun c => !isSpace c))[63] ::
        (((s.dropWhile isSpace).takeWhile (fun c => !isSpace c)).drop 64 ++
          (s.dropWhile isSpace).dropWhile (fun c => !isSpace c))).dropWhile isSpace)) =
        ((s.dropWhile isSpace).takeWhile (fun c => !isSpace c))[63] ::
        (((s.dropWhile isSpace).takeWhile (fun c => !isSpace c)).drop 64 ++
          (s.dropWhile isSpace).dropWhile (fun c => !isSpace c)) from by
        simp [List.dropWhile_cons, hp63],
      List.takeWhile_cons]
    simp [hp63]
  have hnm_ne : ((s.dropWhile isSpace).takeWhile (fun c => !isSpace c)).take 63 ≠ [] := by
    intro hcontra
    have h1 : (((s.dropWhile isSpace).takeWhile (fun c => !isSpace c)).take 63).length = 63 := by
      simp [List.length_take]
      omega
    rw [hcontra] at h1
    simp at h1
  have hgd63 : ((s.dropWhile isSpace).takeWhile (fun c => !isSpace c)).getD 63 0 =
      ((s.dropWhile isSpace).takeWhile (fun c => !isSpace c))[63] :=
    getD_eq_getElem _ 63 0 h
  rw [hgd63, scanLine, hname]
  simp only [if_neg hnm_ne]
  rw [htype]
  simp only [if_neg (show ¬(([((s.dropWhile isSpace).takeWhile (fun c => !isSpace c))[63]] :
    List Nat) = []) from by simp)]
  split
  · exact ⟨rfl, rfl⟩
  · split
    · exact ⟨rfl, rfl⟩
    · exact ⟨rfl, rfl⟩

theorem scanLine_name_short (s : List Nat) : (scanLine s).name.length ≤ 63 := by
  have hrt : (readToken 63 s).1.length ≤ 63 := by
    rw [readToken]
    simp [List.length_take]
  simp only [scanLine]
  split
  · simp
  · split
    · simpa using hrt
    · split
      · simpa using hrt
      · split
        · simpa using hrt
        · simpa using hrt

theorem validEntriesAux_name_short (buf : List Nat) :
    ∀ (f pos : Nat) (p : List Nat × Nat), p ∈ validEntriesAux buf f pos → p.1.length ≤ 63 := by
  intro f
  induction f with
  | zero =>
    intro pos p hp
    simp [validEntriesAux] at hp
  | succ f ih =>
    intro pos p hp
    simp only [validEntriesAux] at hp
    split at hp
    · split at hp
      · rcases List.mem_cons.mp hp with hp1 | hp2
        · rw [hp1]
          exact scanLine_name_short _
        · exact ih _ p hp2
      · exact ih _ p hp
    · simp at hp

theorem validEntries_name_short (buf : List Nat) (p : List Nat × Nat)
    (hp : p ∈ validEntries buf) : p.1.length ≤ 63 :=
  validEntriesAux_name_short buf _ 0 p hp

theorem parseMap_mapSet (buf : List Nat) : (parseMap buf).mapSet = some (parseTable buf) := by
  rw [parseMap]
  split
  · rfl
  · rfl

/-! ## Claim theorems -/

/-- C1 (amended): for every symbol map built by parse_map (newline count
bounding the valid entries and below the sentinel) and every name n
added with address a, a subsequent get_symbol(n) returns a provided no
other added name collides with n on the 32-bit PJW hash AND n does not
hash to the bucket of the map's first valid entry: the entry stored at
chain index 0, and every entry whose chain passes through it, is never
returned, because the lookup loop treats chain index 0 as end-of-chain. -/
theorem c1_get_symbol_returns_added_address (buf n : List Nat) (a : Nat)
    (hWF : (validEntries buf).length ≤ countNewlines buf)
    (hsz : countNewlines buf ≤ SENT)
    (hcol : ∀ p ∈ validEntries buf, elfHash p.1 = elfHash n → p.2 = a)
    (hmem : (n, a) ∈ validEntries buf)
    (hb0 : elfHash ((validEntries buf).headD ([], 0)).1 % countNewlines buf ≠
      elfHash n % countNewlines buf) :
    getSymbol (parseMap buf).mapSet n = .found a := by
  rw [parseMap_mapSet]
  exact getSymbol_parse_found buf n a hWF hsz hmem hcol hb0

/-- Witness for C1: in the map "a T 1\nb T 2\n", the name "b" (which does
not share the first entry's bucket) is found with its address 2. -/
theorem c1_witness : getSymbol (parseMap mapTwoSyms).mapSet [98] = .found 2 :=
  c1_get_symbol_returns_added_address mapTwoSyms [98] 2 (by decide) (by decide)
    (by decide) (by decide) (by decide)

/-- Counterexample to C1 as stated: in the map "a T 1\n" the single name
"a" was added with address 1 and nothing collides with it, yet
get_symbol("a") reports not-found, because "a" is the entry at chain
index 0 and the walk condition (i != 0) treats its index as
end-of-chain. -/
theorem c1_counterexample :
    validEntries mapOneSym = [([97], 1)] ∧
    (parseMap mapOneSym).ret = 1 ∧
    getSymbol (parseMap mapOneSym).mapSet [97] = .notFound := by
  decide

/-- C2 (amended): a successful parse_map returns the newline count of
the input, an upper bound on - and in general different from - the
number of valid symbol lines entered into the map; the number of entries
actually entered equals the number of valid lines. -/
theorem c2_parse_returns_newline_count (buf : List Nat) (h : 0 < countNewlines buf) :
    (parseMap buf).ret = (countNewlines buf : Int) ∧
    (parseMap buf).err = none ∧
    (parseTable buf).entries.length = (validEntries buf).length := by
  refine ⟨?_, ?_, ?_⟩
  · rw [parseMap, if_neg (by omega)]
  · rw [parseMap, if_neg (by omega)]
  · rw [parseTable_entries]
    simp

/-- Witness for C2: the input "skip U 80030000\n" has one newline. -/
theorem c2_witness :
    (parseMap mapOnlyInvalid).ret = (countNewlines mapOnlyInvalid : Int) ∧
    (parseMap mapOnlyInvalid).err = none ∧
    (parseTable mapOnlyInvalid).entries.length = (validEntries mapOnlyInvalid).length :=
  c2_parse_returns_newline_count mapOnlyInvalid (by decide)

/-- Counterexample to C2 as stated: parsing "skip U 80030000\n" enters
zero entries into the map (the U line is dropped) yet returns 1, the
newline count, so the returned count does not exclude dropped lines. -/
theorem c2_counterexample :
    (parseMap mapOnlyInvalid).ret = 1 ∧
    (parseTable mapOnlyInvalid).entries.length = 0 ∧
    validEntries mapOnlyInvalid = [] := by
  decide

/-- C3 (code bug): contrary to the spec, the get_symbol chain walk does
NOT treat the sentinel 0xffffffff as end-of-chain: its loop condition
tests only i != 0, so an empty bucket head (still holding the sentinel)
sends the walk to read _map_entry_table[0xffffffff], far outside the
entry table. On the map "a T 1\n\n" (nbucket 2, bucket 0 empty) the
query "b" performs exactly that out-of-bounds read instead of reporting
MapSymbol. -/
theorem c3_sentinel_read_out_of_bounds :
    getSymbol (parseMap mapOneSymTwoLines).mapSet [98] = .oobRead 4294967295 := by
  decide

/-- C4 (code bug): in Now mode dlinit resolves an undefined OBJECT/FUNC
symbol by calling _dl_resolve_callback unconditionally (dl.c line 557):
with no callback installed it jumps through a null function pointer
(modelled as InitRes.ub) instead of falling back to DL_GetSymbolByName
as the lazy-path helper does; with a callback installed, a null result
does fail the whole init with MapSymbol, and a successful result is
stored into the matching GOT slot. -/
theorem c4_now_mode_null_callback :
    dlinit 4096 8192 0 none imgOneExtern 2147483648 64 .now = .ub ∧
    dlinit 4096 8192 0 (some (fun _ => 0)) imgOneExtern 2147483648 64 .now =
      .err .mapSymbol ∧
    (initGot (dlinit 4096 8192 0 (some (fun _ => 3217031168)) imgOneExtern
      2147483648 64 .now)).getD 3 0 = 3217031168 := by
  refine ⟨by decide, by decide, by decide⟩

/-- C5 (amended): parse_map fails with NoSymbols and -1 only when the
input contains no newline at all (the `!entries` test is on the newline
count, not the valid-line count); even then the global hash-table
pointer does not remain null: it is left pointing at the freshly
allocated empty table, since the tables are assigned before the check. -/
theorem c5_no_newlines_no_symbols (buf : List Nat)
    (h0 : countNewlines buf = 0) (hv : validEntries buf = []) :
    (parseMap buf).ret = -1 ∧
    (parseMap buf).err = some .noSymbols ∧
    (parseMap buf).mapSet = some { ht := [0, 0], entries := [] } := by
  refine ⟨?_, ?_, ?_⟩
  · rw [parseMap, if_pos h0]
  · rw [parseMap, if_pos h0]
  · rw [parseMap_mapSet]
    have htbl : parseTable buf = { ht := [0, 0], entries := [] } := by
      rw [parseTable, parseStep_eq_foldl,
        show validEntriesAux buf (buf.length + 1) 0 = validEntries buf from rfl, hv,
        List.foldl_nil, h0]
      rfl
    rw [htbl]

/-- Witness for C5: the empty input. -/
theorem c5_witness :
    (parseMap ([] : List Nat)).ret = -1 ∧
    (parseMap ([] : List Nat)).err = some .noSymbols ∧
    (parseMap ([] : List Nat)).mapSet = some { ht := [0, 0], entries := [] } :=
  c5_no_newlines_no_symbols [] (by decide) (by decide)

/-- Counterexample to C5 as stated: "skip U 80030000\n" contains zero
valid symbol lines, yet parse_map returns 1 with no error and a loaded
(non-null) map, because the NoSymbols test is on the newline count. -/
theorem c5_counterexample :
    validEntries mapOnlyInvalid = [] ∧
    (parseMap mapOnlyInvalid).ret = 1 ∧
    (parseMap mapOnlyInvalid).err = none ∧
    (parseMap mapOnlyInvalid).mapSet ≠ none := by
  decide

/-- C6: for every module handle successfully produced by dlinit (with a
GOT of at least the two reserved slots and non-degenerate dynamic
counts), got[0] holds the lazy-resolve trampoline address, got[1] holds
the handle's own address, got_length equals
local_got + (symbol_count - first_got_sym) - 2 as declared in the
dynamic section, and in Lazy mode every GOT entry got[2+i] with
i < got_length equals its link-time value plus the module base (in
32-bit arithmetic). -/
theorem c6_dlinit_got_invariants (tr ha junk : Nat) (cb : Option (List Nat → Nat))
    (img : Image) (base size : Nat) (mode : DLMode) (dll : DLLS)
    (hok : dlinit tr ha junk cb img base size mode = .ok dll)
    (hg2 : 2 ≤ img.got.length)
    (hS32 : lastTagValD img.dyn DT_MIPS_SYMTABNO junk < U32)
    (hFS : lastTagValD img.dyn DT_MIPS_GOTSYM 0 ≤ lastTagValD img.dyn DT_MIPS_SYMTABNO junk)
    (h2le : 2 ≤ lastTagValD img.dyn DT_MIPS_LOCAL_GOTNO 0 +
      (lastTagValD img.dyn DT_MIPS_SYMTABNO junk - lastTagValD img.dyn DT_MIPS_GOTSYM 0))
    (hnw : lastTagValD img.dyn DT_MIPS_LOCAL_GOTNO 0 +
      (lastTagValD img.dyn DT_MIPS_SYMTABNO junk - lastTagValD img.dyn DT_MIPS_GOTSYM 0) - 2
      < U32) :
    dll.gotLength = lastTagValD img.dyn DT_MIPS_LOCAL_GOTNO 0 +
      (lastTagValD img.dyn DT_MIPS_SYMTABNO junk - lastTagValD img.dyn DT_MIPS_GOTSYM 0) - 2 ∧
    dll.got.getD 0 0 = tr ∧
    dll.got.getD 1 0 = ha ∧
    (mode = .lazy → ∀ i : Nat, i < dll.gotLength → 2 + i < img.got.length →
      dll.got.getD (2 + i) 0 = (img.got.getD (2 + i) 0 + base) % U32) := by
  obtain ⟨hb, info, heq, syms2, got2, heq2, hdll⟩ :=
    dlinit_ok_inv tr ha junk cb img base size mode dll hok
  obtain ⟨hL, hS, hF⟩ := dynWalk_fields img.dyn junk info heq
  have hU2 : 2 ≤ U32 := by decide
  have hF32 : info.firstGotSym < U32 := by
    rw [hF]
    omega
  have hgl : gotLengthOf info = lastTagValD img.dyn DT_MIPS_LOCAL_GOTNO 0 +
      (lastTagValD img.dyn DT_MIPS_SYMTABNO junk - lastTagValD img.dyn DT_MIPS_GOTSYM 0) - 2 := by
    rw [gotLengthOf, hL, hS, hF]
    rw [Nat.mod_eq_of_lt (by omega : lastTagValD img.dyn DT_MIPS_GOTSYM 0 < U32)]
    have hsub : (lastTagValD img.dyn DT_MIPS_SYMTABNO junk + U32 -
        lastTagValD img.dyn DT_MIPS_GOTSYM 0) % U32 =
        lastTagValD img.dyn DT_MIPS_SYMTABNO junk - lastTagValD img.dyn DT_MIPS_GOTSYM 0 := by
      have h1 : lastTagValD img.dyn DT_MIPS_SYMTABNO junk + U32 -
          lastTagValD img.dyn DT_MIPS_GOTSYM 0 =
          (lastTagValD img.dyn DT_MIPS_SYMTABNO junk - lastTagValD img.dyn DT_MIPS_GOTSYM 0)
            + U32 := by
        omega
      rw [h1, Nat.add_mod_right, Nat.mod_eq_of_lt (by omega)]
    rw [hsub]
    have h2 : lastTagValD img.dyn DT_MIPS_LOCAL_GOTNO 0 +
        (lastTagValD img.dyn DT_MIPS_SYMTABNO junk - lastTagValD img.dyn DT_MIPS_GOTSYM 0) +
        (U32 - 2) =
        (lastTagValD img.dyn DT_MIPS_LOCAL_GOTNO 0 +
          (lastTagValD img.dyn DT_MIPS_SYMTABNO junk - lastTagValD img.dyn DT_MIPS_GOTSYM 0)
          - 2) + U32 := by
      omega
    rw [h2, Nat.add_mod_right, Nat.mod_eq_of_lt hnw]
  have hgotfacts := symLoopAux_ok_got01 cb img.strtab mode base (gotLengthOf info)
    info.symbolCount 0 img.symtab _ info.firstGotSym syms2 got2 heq2
  have hgot1len : ((img.got.set 0 tr).set 1 ha).length = img.got.length := by
    simp
  have hget0 : got2.getD 0 0 = tr := by
    rw [hgotfacts.1 0 (by omega) 0,
      relocGotAux_getD_lt_two base ((img.got.set 0 tr).set 1 ha) (gotLengthOf info) 0 0
        (by omega),
      getD_set_ne _ ha 0 (by omega : (1 : Nat) ≠ 0),
      getD_set_self img.got 0 tr 0 (by omega)]
  have hget1 : got2.getD 1 0 = ha := by
    rw [hgotfacts.1 1 (by omega) 0,
      relocGotAux_getD_lt_two base ((img.got.set 0 tr).set 1 ha) (gotLengthOf info) 1 0
        (by omega),
      getD_set_self (img.got.set 0 tr) 1 ha 0 (by simp; omega)]
  refine ⟨?_, ?_, ?_, ?_⟩
  · rw [hdll]
    exact hgl
  · rw [hdll]
    exact hget0
  · rw [hdll]
    exact hget1
  · intro hmode i hi hlen2
    subst hmode
    obtain ⟨syms3, heq3⟩ := symLoopAux_lazy_ok cb img.strtab base (gotLengthOf info)
      info.symbolCount 0 img.symtab
      (relocGotAux base ((img.got.set 0 tr).set 1 ha) (gotLengthOf info)) info.firstGotSym
    rw [heq3] at heq2
    have hgot2 : got2 = relocGotAux base ((img.got.set 0 tr).set 1 ha) (gotLengthOf info) := by
      cases heq2
      rfl
    have higl : i < gotLengthOf info := by
      rw [hdll] at hi
      exact hi
    rw [hdll]
    show got2.getD (2 + i) 0 = (img.got.getD (2 + i) 0 + base) % U32
    rw [hgot2, relocGotAux_getD_hit base ((img.got.set 0 tr).set 1 ha) (gotLengthOf info) i
      higl (by rw [hgot1len]; exact hlen2),
      getD_set_ne _ ha 0 (by omega : (1 : Nat) ≠ 2 + i),
      getD_set_ne _ tr 0 (by omega : (0 : Nat) ≠ 2 + i)]

/-- Witness for C6: the lazy image imgLazy at base 0x80010000 yields the
handle dllLazy satisfying all four GOT invariants. -/
theorem c6_witness :
    dllLazy.gotLength = lastTagValD imgLazy.dyn DT_MIPS_LOCAL_GOTNO 0 +
      (lastTagValD imgLazy.dyn DT_MIPS_SYMTABNO 0 - lastTagValD imgLazy.dyn DT_MIPS_GOTSYM 0)
      - 2 ∧
    dllLazy.got.getD 0 0 = 4096 ∧
    dllLazy.got.getD 1 0 = 8192 ∧
    (DLMode.lazy = DLMode.lazy → ∀ i : Nat, i < dllLazy.gotLength → 2 + i < imgLazy.got.length →
      dllLazy.got.getD (2 + i) 0 = (imgLazy.got.getD (2 + i) 0 + 2147549184) % U32) :=
  c6_dlinit_got_invariants 4096 8192 0 none imgLazy 2147549184 128 .lazy dllLazy
    (by decide) (by decide) (by decide) (by decide) (by decide) (by decide)

/-- C7: for every constructor list [count, fn1, ..., fn_count] found
under __CTOR_LIST__, dlinit invokes fn_count down to fn_1 (reverse
order); for every destructor list of the same shape found under
__DTOR_LIST__, dlclose invokes fn_1 up to fn_count (forward order); so
for lists of equal length the constructor order is exactly the reverse
of the destructor order. -/
theorem c7_ctor_reverse_of_dtor (fs : List Nat) :
    ctorCalls (fs.length :: fs) = fs.reverse ∧
    dtorCalls (fs.length :: fs) = fs ∧
    ctorCalls (fs.length :: fs) = (dtorCalls (fs.length :: fs)).reverse := by
  have h1 : ctorCalls (fs.length :: fs) = fs.reverse := by
    rw [ctorCalls, show (fs.length :: fs).getD 0 0 = fs.length from rfl,
      ctorLoop_eq_take_reverse fs fs.length fs.length (le_refl _), List.take_length]
  have h2 : dtorCalls (fs.length :: fs) = fs := by
    rw [dtorCalls, show (fs.length :: fs).getD 0 0 = fs.length from rfl]
    have hshift : ∀ i : Nat, (fs.length :: fs).getD (i + 1) 0 = fs.getD i 0 := fun i => rfl
    simp only [hshift]
    rw [range_map_getD_eq_take fs fs.length (le_refl _), List.take_length]
  exact ⟨h1, h2, by rw [h1, h2]⟩

/-- C8: for every NUL-terminated byte string, the implemented hash
function _elf_hash computes exactly the ELF PJW variant given in spec
section 4.1, so map construction (which stores elfHash of each name) and
lookup (which compares elfHash of the query) agree bit-exactly with the
specified function. -/
theorem c8_hash_matches_spec (s : List Nat) : elfHash s = pjwHashSpec s := by
  rw [elfHash, elfHashAux_eq_foldl]
  rfl

/-- C9: for every call to dlopen whose byte loader succeeds, if dlinit
fails the byte-loaded buffer is freed and null is returned; if dlinit
succeeds the returned handle records ownership of the buffer in
malloc_ptr, so a later dlclose frees that buffer. -/
theorem c9_dlopen_buffer_ownership (tr ha junk : Nat) (cb : Option (List Nat → Nat))
    (img : Image) (base size : Nat) (mode : DLMode) :
    (∀ e : ErrCode, dlinit tr ha junk cb img base size mode = .err e →
      dlopenModel tr ha junk cb (some (img, base, size)) mode = .initFailedFreed) ∧
    (∀ dll : DLLS, dlinit tr ha junk cb img base size mode = .ok dll →
      dlopenModel tr ha junk cb (some (img, base, size)) mode =
        .ok { dll with mallocPtr := some dll.base } ∧
      dll.base ∈ dlcloseFreed (some { dll with mallocPtr := some dll.base }) ha) := by
  constructor
  · intro e he
    simp only [dlopenModel, he]
  · intro dll hok
    refine ⟨by simp only [dlopenModel, hok], ?_⟩
    simp [dlcloseFreed]

/-- C10: the sscanf format %63s makes the parser read at most the first
63 bytes of a line's name token - the following bytes are consumed as
the next tokens, the 64th byte becoming the type letter - so every entry
stored in the map carries the hash of a name of at most 63 bytes, and a
symbol whose name token is 64 bytes or longer is never entered under its
full name. -/
theorem c10_name_token_truncated (s : List Nat)
    (h : 63 < ((s.dropWhile isSpace).takeWhile (fun c => !isSpace c)).length) :
    ((scanLine s).name = ((s.dropWhile isSpace).takeWhile (fun c => !isSpace c)).take 63 ∧
      (scanLine s).type0 = ((s.dropWhile isSpace).takeWhile (fun c => !isSpace c)).getD 63 0) ∧
    (∀ buf : List Nat, (parseTable buf).entries =
      (validEntries buf).map (fun p => ⟨elfHash p.1, p.2⟩)) ∧
    (∀ (buf : List Nat) (p : List Nat × Nat), p ∈ validEntries buf → p.1.length ≤ 63) :=
  ⟨scanLine_name_type_of_long s h, fun buf => parseTable_entries buf,
    fun buf p hp => validEntries_name_short buf p hp⟩

/-- Witness for C10: a line whose name token is 64 'A' bytes followed by
" 80010000". -/
theorem c10_witness :
    ((scanLine longNameLine).name =
        ((longNameLine.dropWhile isSpace).takeWhile (fun c => !isSpace c)).take 63 ∧
      (scanLine longNameLine).type0 =
        ((longNameLine.dropWhile isSpace).takeWhile (fun c => !isSpace c)).getD 63 0) ∧
    (∀ buf : List Nat, (parseTable buf).entries =
      (validEntries buf).map (fun p => ⟨elfHash p.1, p.2⟩)) ∧
    (∀ (buf : List Nat) (p : List Nat × Nat), p ∈ validEntries buf → p.1.length ≤ 63) :=
  c10_name_token_truncated longNameLine (by decide)
